import Mathlib

/-
Verification development for the pptx-localizer core:
a shallow embedding of src/pptx_linguistic_tool/core/extraction/slide_text_extractor.py
and src/pptx_linguistic_tool/core/reintegration/reintegrator_all.py.

Slide XML parts are modelled as ordered element trees.  An ElementTree element
carries a tag, an attribute list, its text (the text before the first child)
and an ordered child list.  Namespaced tags are written with their conventional
prefixes ("a:t", "p:sp", "m:oMath", ...) since the namespace URIs are fixed
constants in the source.  The attribute key written
"{http://www.w3.org/XML/1998/namespace}space" in the source is modelled as the
constant key "xml:space".
-/

inductive Xml where
  | elem (tag : String) (attrs : List (String × String)) (text : String) (children : List Xml)

def Xml.tag : Xml → String
  | .elem t _ _ _ => t

def Xml.attrs : Xml → List (String × String)
  | .elem _ a _ _ => a

def Xml.text : Xml → String
  | .elem _ _ s _ => s

def Xml.children : Xml → List Xml
  | .elem _ _ _ cs => cs

def Xml.withChildren : Xml → List Xml → Xml
  | .elem t a s _, cs => .elem t a s cs

/-- Attribute lookup, element.get(key) in ElementTree. -/
def Xml.attr (x : Xml) (k : String) : Option String :=
  (x.attrs.find? (fun pr => pr.1 == k)).map (fun pr => pr.2)

mutual

/-- All nodes of a forest in document (preorder) order. -/
def descList : List Xml → List Xml
  | [] => []
  | x :: xs => descOne x ++ descList xs

/-- A node followed by all its descendants in document order. -/
def descOne : Xml → List Xml
  | .elem t a s cs => .elem t a s cs :: descList cs

end

/-- element.findall(".//tag"): every proper descendant with the given tag, in
document order. -/
def findallDesc (tag : String) (x : Xml) : List Xml :=
  (descList x.children).filter (fun y => y.tag == tag)

/-- element.find("tag"): first direct child with the given tag. -/
def findChild (tag : String) (x : Xml) : Option Xml :=
  x.children.find? (fun y => y.tag == tag)

/-- element.findall("./tag"): direct children with the given tag. -/
def childrenTag (tag : String) (x : Xml) : List Xml :=
  x.children.filter (fun y => y.tag == tag)

-- ---------------------------------------------------------------------------
-- slide_text_extractor.py
-- ---------------------------------------------------------------------------

/-- The placeholder types skipped by both modules (_SKIP_PH_TYPES in the
extractor, the literal set in _shape_is_skipped_placeholder): date,
slide-number, footer, header. -/
def skipPhTypes : List String := ["dt", "sldNum", "ftr", "hdr"]

/-- Model of _text_from_run: direct a:t text, a:tab as a real tab character,
a:br as a real newline character, then any OfficeMath m:t text nested anywhere
under the run (appended after the direct children scan, as in the source). -/
def textFromRun (r : Xml) : String :=
  let direct := r.children.foldl (fun acc child =>
    if child.tag == "a:t" then acc ++ child.text
    else if child.tag == "a:tab" then acc ++ "\t"
    else if child.tag == "a:br" then acc ++ "\n"
    else acc) ""
  (findallDesc "m:t" r).foldl (fun acc mt =>
    if mt.text ≠ "" then acc ++ mt.text else acc) direct

/-- Model of the body-collection loop of _extract_paragraph_text: direct
children of an a:p element, runs and field runs via textFromRun, break and tab
markers, stray math text directly under the paragraph. -/
def paragraphBodyText (p : Xml) : String :=
  p.children.foldl (fun acc child =>
    if child.tag == "a:r" || child.tag == "a:fld" then acc ++ textFromRun child
    else if child.tag == "a:br" then acc ++ "\n"
    else if child.tag == "a:tab" then acc ++ "\t"
    else if child.tag == "m:t" then
      (if child.text ≠ "" then acc ++ child.text else acc)
    else acc) ""

/-- The buChar lookup used twice in _extract_paragraph_text: the char
attribute of a direct a:buChar child; the source treats a missing or empty
attribute as no bullet. -/
def buCharOf (e : Xml) : String :=
  match findChild "a:buChar" e with
  | some bu =>
    match bu.attr "char" with
    | some ch => ch
    | none => ""
  | none => ""

/-- Model of the paragraph level read in _extract_paragraph_text:
int(pPr.get("lvl") or "0") guarded by a try that falls back to 0. -/
def paragraphLevel (pPr : Option Xml) : Int :=
  match pPr with
  | some pr =>
    match pr.attr "lvl" with
    | some v => ((if v == "" then "0" else v).toInt?).getD 0
    | none => 0
  | none => 0

/-- The list-style level name built in _extract_paragraph_text:
"a:lvl" with max(1, min(9, lvl + 1)) spliced in, then "pPr". -/
def clampedLvlName (lvl : Int) : String :=
  "a:lvl" ++ toString (max 1 (min 9 (lvl + 1))) ++ "pPr"

/-- The tuple of body[:1] values after which no separating space is inserted
between a bullet and the paragraph body. -/
def noSpaceStarters : List Char := [':', ';', '.', ',', ')', '-', '—', '·', ' ']

/-- True when body[:1] is one of the no-space starters; an empty body has
body[:1] equal to the empty string, which is not in the tuple. -/
def startsWithNoSpaceStarter (body : String) : Bool :=
  match body.data with
  | [] => false
  | c :: _ => noSpaceStarters.contains c

/-- The explicit-bullet block of _extract_paragraph_text: the buChar on the
paragraph properties, the empty string when there is none. -/
def explicitBuChar (pPr : Option Xml) : String :=
  match pPr with
  | some pr => buCharOf pr
  | none => ""

/-- The inheritance block of _extract_paragraph_text: the buChar of the
list-style's level element named by the clamped paragraph level. -/
def inheritedBuChar (pPr lstStyle : Option Xml) : String :=
  match lstStyle with
  | some ls =>
    match findChild (clampedLvlName (paragraphLevel pPr)) ls with
    | some lvlPPr => buCharOf lvlPPr
    | none => ""
  | none => ""

/-- The bullet _extract_paragraph_text ends up with: the explicit one, or the
inherited one when the explicit one is empty. -/
def resolvedBullet (pPr lstStyle : Option Xml) : String :=
  if explicitBuChar pPr == "" then inheritedBuChar pPr lstStyle
  else explicitBuChar pPr

/-- Model of _extract_paragraph_text: resolve the bullet (explicit buChar on
a:pPr, else inherited from the list style at the clamped level), then prefix
it to the body with the space-suppression rule. -/
def extractParagraphText (p : Xml) (lstStyle : Option Xml) : String :=
  let bullet := resolvedBullet (findChild "a:pPr" p) lstStyle
  let body := paragraphBodyText p
  if bullet ≠ "" then
    bullet ++ (if startsWithNoSpaceStarter body then "" else " ") ++ body
  else body

/-- The extractor's placeholder check on a p:sp shape: sp.find(".//p:ph"),
skip when its type attribute is one of the skip-listed placeholder types. -/
def spSkippedExtraction (sp : Xml) : Bool :=
  match (findallDesc "p:ph" sp).head? with
  | some ph =>
    match ph.attr "type" with
    | some t => skipPhTypes.contains t
    | none => false
  | none => false

mutual

/-- Text bodies of a forest paired with the skip status of their owning shape.
The source locates, for each text body, the first p:sp in document order whose
subtree contains it (by object identity); that shape is the outermost
enclosing p:sp, which this traversal tracks in its accumulator: the skip
status of the outermost p:sp on the path, or none outside every shape. -/
def txBodiesWSList (tag : String) (owner : Option Bool) : List Xml → List (Xml × Bool)
  | [] => []
  | x :: xs => txBodiesWSOne tag owner x ++ txBodiesWSList tag owner xs

def txBodiesWSOne (tag : String) (owner : Option Bool) : Xml → List (Xml × Bool)
  | .elem t a s cs =>
    let owner' := if t == "p:sp" && owner.isNone
      then some (spSkippedExtraction (.elem t a s cs)) else owner
    (if t == tag then [((.elem t a s cs : Xml), owner'.getD false)] else []) ++
      txBodiesWSList tag owner' cs

end

/-- Model of _iter_all_paragraphs_from_slide_xml: all a:txBody elements in
document order, then all p:txBody elements in document order; bodies owned by
a skip-listed placeholder shape are dropped; each remaining body contributes
one extracted line per direct a:p child, with the body's direct a:lstStyle
child as the inherited-bullet source. -/
def iterAllParagraphsFromSlideXml (root : Xml) : List String :=
  let txBodies := txBodiesWSList "a:txBody" none root.children ++
    txBodiesWSList "p:txBody" none root.children
  txBodies.flatMap (fun tb =>
    if tb.2 then []
    else (childrenTag "a:p" tb.1).map
      (fun pe => extractParagraphText pe (findChild "a:lstStyle" tb.1)))

/-- Model of s.replace given a real newline and the two-character literal
replacement in extract_slide_text: every real newline character becomes the
two characters backslash and n; nothing else is changed.  A one-character
search pattern makes str.replace a character-by-character map. -/
def escapeNewlines (s : String) : String :=
  String.mk (s.data.flatMap (fun c => if c == '\n' then ['\\', 'n'] else [c]))

/-- The lines written to one slide's LineFile by extract_slide_text: the
extracted paragraph texts with real newlines escaped, joined by newlines
(one text-file line per paragraph). -/
def slideLineFileLines (root : Xml) : List String :=
  (iterAllParagraphsFromSlideXml root).map escapeNewlines

-- ---------------------------------------------------------------------------
-- reintegrator_all.py: helpers and XML collectors
-- ---------------------------------------------------------------------------

/-- Model of _split_keep_seps: scan the characters, cutting a segment at each
literal backslash-n / backslash-t pair and at each real newline / tab
character; every cut records the separator as the two-character literal; a
final segment with an empty separator is always appended. -/
def splitKeepSepsAux (buf : List Char) : List Char → List (String × String)
  | [] => [(String.mk buf.reverse, "")]
  | '\\' :: 'n' :: rest => (String.mk buf.reverse, "\\n") :: splitKeepSepsAux [] rest
  | '\\' :: 't' :: rest => (String.mk buf.reverse, "\\t") :: splitKeepSepsAux [] rest
  | '\n' :: rest => (String.mk buf.reverse, "\\n") :: splitKeepSepsAux [] rest
  | '\t' :: rest => (String.mk buf.reverse, "\\t") :: splitKeepSepsAux [] rest
  | c :: rest => splitKeepSepsAux (c :: buf) rest

def splitKeepSeps (s : String) : List (String × String) :=
  splitKeepSepsAux [] s.data

/-- element.set on an attribute list: replace the value when the key exists,
append the pair otherwise. -/
def setAttr (attrs : List (String × String)) (k v : String) : List (String × String) :=
  if attrs.any (fun pr => pr.1 == k) then
    attrs.map (fun pr => if pr.1 == k then (k, v) else pr)
  else attrs ++ [(k, v)]

/-- Model of _set_xml_space_preserve applied to an attribute list. -/
def setXmlSpacePreserve (attrs : List (String × String)) : List (String × String) :=
  setAttr attrs "xml:space" "preserve"

/-- Model of _find_runs: all a:t elements anywhere in the slide. -/
def findRuns (root : Xml) : List Xml :=
  findallDesc "a:t" root

/-- The elements _replace_single_t_with_segments appends to the parent of the
removed a:t: for each (segment, separator) of the split, a fresh a:t carrying
the segment with xml:space preserve, followed by an a:br or a:tab element when
the separator is the literal backslash-n or backslash-t. -/
def segmentElems (text : String) : List Xml :=
  (splitKeepSeps text).flatMap (fun sg =>
    (Xml.elem "a:t" (setXmlSpacePreserve []) sg.1 []) ::
      (if sg.2 == "\\n" then [(Xml.elem "a:br" [] "" [] : Xml)]
       else if sg.2 == "\\t" then [(Xml.elem "a:tab" [] "" [] : Xml)]
       else []))

/-- Model of the sp_el.find(".//p:nvSpPr/p:nvPr/p:ph") path lookup in
_shape_is_skipped_placeholder: first descendant p:nvSpPr, direct p:nvPr
child, direct p:ph child, first such element in document order. -/
def findPhNvPath (sp : Xml) : Option Xml :=
  (((descList sp.children).filter (fun n => n.tag == "p:nvSpPr")).flatMap
    (fun n => (n.children.filter (fun m => m.tag == "p:nvPr")).flatMap
      (fun m => m.children.filter (fun q => q.tag == "p:ph")))).head?

/-- Model of _shape_is_skipped_placeholder. -/
def shapeIsSkippedPlaceholder (sp : Xml) : Bool :=
  match findPhNvPath sp with
  | none => false
  | some ph =>
    match ph.attr "type" with
    | some t => skipPhTypes.contains t
    | none => false

mutual

/-- Model of _collect_paragraphs_from_node: dispatch on the node tag; shapes
contribute the descendant a:p elements of their first direct p:txBody child
unless the shape is a skipped placeholder; group shapes recurse into their
children; graphic frames contribute every descendant a:p; anything else
recurses generically. -/
def collectParagraphsFromNode : Xml → List Xml
  | .elem tag a s cs =>
    if tag == "p:sp" then
      if shapeIsSkippedPlaceholder (.elem tag a s cs) then []
      else
        match findChild "p:txBody" (.elem tag a s cs) with
        | some tx => findallDesc "a:p" tx
        | none => []
    else if tag == "p:grpSp" then collectParagraphsFromChildren cs
    else if tag == "p:graphicFrame" then findallDesc "a:p" (.elem tag a s cs)
    else collectParagraphsFromChildren cs

def collectParagraphsFromChildren : List Xml → List Xml
  | [] => []
  | c :: cs => collectParagraphsFromNode c ++ collectParagraphsFromChildren cs

end

mutual

/-- Locates the slide's root.find(".//p:cSld/p:spTree") target: the first
p:spTree element whose parent is a p:cSld, in preorder. -/
def findSpTreeList (parentIsCSld : Bool) : List Xml → Option Xml
  | [] => none
  | c :: cs =>
    match findSpTreeOne parentIsCSld c with
    | some st => some st
    | none => findSpTreeList parentIsCSld cs

def findSpTreeOne (parentIsCSld : Bool) : Xml → Option Xml
  | .elem tag a s cs =>
    if parentIsCSld && tag == "p:spTree" then some (.elem tag a s cs)
    else findSpTreeList (tag == "p:cSld") cs

end

/-- Model of _collect_paragraphs: paragraphs from each child of the slide's
shape tree, or every descendant a:p when there is no shape tree. -/
def collectParagraphs (root : Xml) : List Xml :=
  match findSpTreeList false root.children with
  | some spTree => collectParagraphsFromChildren spTree.children
  | none => findallDesc "a:p" root

def isMathTag (t : String) : Bool :=
  t == "m:oMath" || t == "m:oMathPara"

mutual

/-- The node set of the xpath .//a:r[not inside OfficeMath]/a:t used by
_visible_plaintext_outside_math and _replace_plaintext_preserving_math,
collected in document order.  inMath records whether an ancestor within the
paragraph is an OfficeMath element; parentEligRun records whether the direct
parent is an a:r with no such ancestor.  Ancestors above the paragraph element
itself are not modelled (a paragraph is never nested inside a formula). -/
def eligTsList (inMath parentEligRun : Bool) : List Xml → List Xml
  | [] => []
  | x :: xs => eligTsOne inMath parentEligRun x ++ eligTsList inMath parentEligRun xs

def eligTsOne (inMath parentEligRun : Bool) : Xml → List Xml
  | .elem tag a s cs =>
    let inM := inMath || isMathTag tag
    let eligR := tag == "a:r" && !inMath
    (if tag == "a:t" && parentEligRun then [((.elem tag a s cs : Xml))] else []) ++
      eligTsList inM eligR cs

end

/-- The eligible (non-math) text units of one paragraph element. -/
def eligTs (p : Xml) : List Xml :=
  eligTsList (isMathTag p.tag) false p.children

/-- Model of _visible_plaintext_outside_math: concatenated text of the
eligible a:t nodes. -/
def visiblePlaintextOutsideMath (p : Xml) : String :=
  ((eligTs p).map Xml.text).foldl (fun acc t => acc ++ t) ""

mutual

/-- Model of the mutation loop of _replace_plaintext_preserving_math: walk
the paragraph subtree; the first eligible a:t receives the new text and
xml:space preserve, every later eligible a:t is blanked; everything else is
untouched.  The Bool threaded through is the loop's first flag. -/
def rpList (newText : String) (inMath parentEligRun first : Bool) :
    List Xml → List Xml × Bool
  | [] => ([], first)
  | x :: xs =>
    let r1 := rpOne newText inMath parentEligRun first x
    let r2 := rpList newText inMath parentEligRun r1.2 xs
    (r1.1 :: r2.1, r2.2)

def rpOne (newText : String) (inMath parentEligRun first : Bool) :
    Xml → Xml × Bool
  | .elem tag attrs text cs =>
    let inM := inMath || isMathTag tag
    let eligR := tag == "a:r" && !inMath
    if tag == "a:t" && parentEligRun then
      if first then
        let rc := rpList newText inM eligR false cs
        (.elem tag (setXmlSpacePreserve attrs) newText rc.1, false)
      else
        let rc := rpList newText inM eligR false cs
        (.elem tag attrs "" rc.1, false)
    else
      let rc := rpList newText inM eligR first cs
      (.elem tag attrs text rc.1, rc.2)

end

/-- Model of _replace_plaintext_preserving_math on one paragraph element.
When the paragraph has no eligible a:t the walk changes nothing, matching the
early return of the source. -/
def replacePlaintextPreservingMath (p : Xml) (newText : String) : Xml :=
  match p with
  | .elem tag attrs text cs =>
    .elem tag attrs text (rpList newText (isMathTag tag) false true cs).1

/-- The whitespace characters stripped by Python str.strip with no argument:
every character whose Unicode bidirectional class is WS, B or S or whose
category is Zs — the ASCII whitespace and separators, NEL, no-break space,
ogham space mark, the en/em/figure/punctuation/thin/hair spaces U+2000-200A,
the line and paragraph separators, narrow no-break space, medium mathematical
space, and ideographic space. -/
def pySpaceChars : List Char :=
  ['\u0009', '\u000a', '\u000b', '\u000c', '\u000d',
   '\u001c', '\u001d', '\u001e', '\u001f', '\u0020',
   '\u0085', '\u00a0', '\u1680',
   '\u2000', '\u2001', '\u2002', '\u2003', '\u2004', '\u2005',
   '\u2006', '\u2007', '\u2008', '\u2009', '\u200a',
   '\u2028', '\u2029', '\u202f', '\u205f', '\u3000']

/-- True exactly when s.strip() is empty, i.e. s is falsy after stripping. -/
def pyStripIsEmpty (s : String) : Bool :=
  s.data.all (fun c => pySpaceChars.contains c)

/-- The per-paragraph step of the loop in _patch_slide_paragraphs: paragraphs
whose visible plain text strips to empty are kept as-is; the others get the
math-preserving replacement. -/
def patchOneParagraph (p : Xml) (line : String) : Xml :=
  if pyStripIsEmpty (visiblePlaintextOutsideMath p) then p
  else replacePlaintextPreservingMath p line

-- ---------------------------------------------------------------------------
-- A size measure used to justify the paragraph-patch traversal
-- ---------------------------------------------------------------------------

mutual

def nodeCountList : List Xml → Nat
  | [] => 0
  | x :: xs => nodeCountOne x + nodeCountList xs

def nodeCountOne : Xml → Nat
  | .elem _ _ _ cs => 1 + nodeCountList cs

end

theorem nodeCountOne_pos (x : Xml) : 1 ≤ nodeCountOne x := by
  cases x with
  | elem t a s cs => simp [nodeCountOne]

mutual

theorem rpList_nodeCount (newText : String) (im pe : Bool) :
    ∀ (f : Bool) (cs : List Xml),
      nodeCountList (rpList newText im pe f cs).1 = nodeCountList cs
  | _, [] => rfl
  | f, x :: xs => by
    simp only [rpList, nodeCountList]
    rw [rpOne_nodeCount newText im pe f x,
      rpList_nodeCount newText im pe (rpOne newText im pe f x).2 xs]

theorem rpOne_nodeCount (newText : String) (im pe : Bool) :
    ∀ (f : Bool) (x : Xml),
      nodeCountOne (rpOne newText im pe f x).1 = nodeCountOne x
  | f, .elem tag attrs text cs => by
    simp only [rpOne]
    split
    · split <;>
        simp only [nodeCountOne, rpList_nodeCount newText _ _ false cs]
    · simp only [nodeCountOne, rpList_nodeCount newText _ _ f cs]

end

theorem patchOneParagraph_children_count (x : Xml) (l : String) :
    nodeCountList (patchOneParagraph x l).children = nodeCountList x.children := by
  cases x with
  | elem tag attrs text cs =>
    simp only [patchOneParagraph]
    split
    · rfl
    · simp only [replacePlaintextPreservingMath, Xml.children]
      exact rpList_nodeCount l (isMathTag (Xml.elem tag attrs text cs).tag) false true cs

mutual

/-- Model of the zip application loop of _patch_slide_paragraphs over a
forest: each a:p in the order of tx.findall(".//a:p") consumes the next line
and is patched by the per-paragraph step, recursing into the patched subtree
for (hypothetical) nested paragraphs exactly as the preorder node list does;
when the line list runs out the remaining paragraphs are untouched, matching
zip. -/
def paraApplyList : List String → List Xml → List Xml × List String
  | lines, [] => ([], lines)
  | lines, x :: xs =>
    let r1 := paraApplyOne lines x
    let r2 := paraApplyList r1.2 xs
    (r1.1 :: r2.1, r2.2)
termination_by lines cs => 2 * nodeCountList cs + 1
decreasing_by
  · simp only [nodeCountList]
    omega
  · have := nodeCountOne_pos x
    simp only [nodeCountList]
    omega

def paraApplyOne : List String → Xml → Xml × List String
  | lines, .elem tag attrs text cs =>
    if tag == "a:p" then
      match lines with
      | [] => (.elem tag attrs text cs, [])
      | l :: ls =>
        let x' := patchOneParagraph (.elem tag attrs text cs) l
        let rc := paraApplyList ls x'.children
        (x'.withChildren rc.1, rc.2)
    else
      let rc := paraApplyList lines cs
      (.elem tag attrs text rc.1, rc.2)
termination_by lines x => 2 * nodeCountOne x
decreasing_by
  · rw [patchOneParagraph_children_count]
    simp only [Xml.children, nodeCountOne]
    omega
  · simp only [nodeCountOne]
    omega

end

mutual

/-- The patching counterpart of _collect_paragraphs_from_node: the same
dispatch, applying lines to the paragraphs each branch would collect. -/
def paraPatchList : List String → List Xml → List Xml × List String
  | lines, [] => ([], lines)
  | lines, x :: xs =>
    let r1 := paraPatchOne lines x
    let r2 := paraPatchList r1.2 xs
    (r1.1 :: r2.1, r2.2)

def paraPatchOne : List String → Xml → Xml × List String
  | lines, .elem tag attrs text cs =>
    if tag == "p:sp" then
      if shapeIsSkippedPlaceholder (.elem tag attrs text cs) then
        (.elem tag attrs text cs, lines)
      else
        let r := patchFirstTxBody lines cs
        (.elem tag attrs text r.1, r.2)
    else if tag == "p:grpSp" then
      let r := paraPatchList lines cs
      (.elem tag attrs text r.1, r.2)
    else if tag == "p:graphicFrame" then
      let r := paraApplyList lines cs
      (.elem tag attrs text r.1, r.2)
    else
      let r := paraPatchList lines cs
      (.elem tag attrs text r.1, r.2)

/-- The shape branch patches only the paragraphs of the first direct
p:txBody child, as sp.find("./p:txBody") does. -/
def patchFirstTxBody : List String → List Xml → List Xml × List String
  | lines, [] => ([], lines)
  | lines, c :: cs =>
    if c.tag == "p:txBody" then
      let r := paraApplyList lines c.children
      (c.withChildren r.1 :: cs, r.2)
    else
      let r := patchFirstTxBody lines cs
      (c :: r.1, r.2)

end

mutual

/-- The patching counterpart of the root.find(".//p:cSld/p:spTree") lookup:
rewrite the children of the first p:spTree under a p:cSld via the node
dispatch, leaving everything else in place. -/
def findSpTreePatchList : List String → Bool → List Xml → List Xml × List String × Bool
  | lines, _, [] => ([], lines, false)
  | lines, parentIsCSld, c :: cs =>
    let r1 := findSpTreePatchOne lines parentIsCSld c
    if r1.2.2 then (r1.1 :: cs, r1.2.1, true)
    else
      let r2 := findSpTreePatchList r1.2.1 parentIsCSld cs
      (r1.1 :: r2.1, r2.2.1, r2.2.2)

def findSpTreePatchOne : List String → Bool → Xml → Xml × List String × Bool
  | lines, parentIsCSld, .elem tag attrs text cs =>
    if parentIsCSld && tag == "p:spTree" then
      let r := paraPatchList lines cs
      (.elem tag attrs text r.1, r.2, true)
    else
      let r := findSpTreePatchList lines (tag == "p:cSld") cs
      (.elem tag attrs text r.1, r.2.1, r.2.2)

end

/-- Warnings and info messages reported by the patch methods. -/
inductive LogMsg where
  | warnTruncated (dropped : Nat)
  | infoNoParagraphs
deriving DecidableEq

/-- The shared pad/truncate step of _patch_slide_runs and
_patch_slide_paragraphs: pad the line list with empty strings when it is
short, truncate it when it is long, warning with the number of dropped
lines only in the second case. -/
def adjustLines (lines : List String) (nXml : Nat) : List String × List LogMsg :=
  if lines.length < nXml then
    (lines ++ List.replicate (nXml - lines.length) "", [])
  else if lines.length > nXml then
    (lines.take nXml, [.warnTruncated (lines.length - nXml)])
  else (lines, [])

mutual

/-- Model of the mutation sequence of _patch_slide_runs: every a:t node in
document order consumes the next line and is removed from its parent, with
_replace_single_t_with_segments appending the line's segment elements at the
end of that parent; a:t nodes beyond the end of the line list are untouched
(zip semantics).  Returns (kept children, elements appended at the end,
remaining lines). -/
def patchRunsChildren : List String → List Xml → List Xml × List Xml × List String
  | lines, [] => ([], [], lines)
  | lines, c :: cs =>
    if c.tag == "a:t" then
      match lines with
      | [] =>
        let r := patchRunsChildren [] cs
        (c :: r.1, r.2.1, r.2.2)
      | l :: ls =>
        let r := patchRunsChildren ls cs
        (r.1, segmentElems l ++ r.2.1, r.2.2)
    else
      let rc := patchRunsElem lines c
      let r := patchRunsChildren rc.2 cs
      (rc.1 :: r.1, r.2.1, r.2.2)

def patchRunsElem : List String → Xml → Xml × List String
  | lines, .elem tag attrs text cs =>
    let r := patchRunsChildren lines cs
    (.elem tag attrs text (r.1 ++ r.2.1), r.2.2)

end

/-- The tree, returned unit count and warnings of one _patch_slide_runs
call (the serialization back to the zip entry is not modelled). -/
structure PatchOutcome where
  tree : Xml
  count : Nat
  log : List LogMsg

def patchSlideRuns (root : Xml) (lines : List String) : PatchOutcome :=
  let nXml := (findRuns root).length
  let al := adjustLines lines nXml
  ⟨(patchRunsElem al.1 root).1, nXml, al.2⟩

def patchSlideParagraphs (root : Xml) (lines : List String) : PatchOutcome :=
  let nXml := (collectParagraphs root).length
  if nXml == 0 then ⟨root, 0, [.infoNoParagraphs]⟩
  else
    let al := adjustLines lines nXml
    let newChildren :=
      match findSpTreeList false root.children with
      | some _ => (findSpTreePatchList al.1 false root.children).1
      | none => (paraApplyList al.1 root.children).1
    ⟨root.withChildren newChildren, nXml, al.2⟩

/-- Model of _choose_method.  The source compares a Python float quotient
against the literals 0.90 and 1.15; within the diff bound of 2 no quotient of
naturals other than an exactly representable one falls inside the rounding gap
of either literal, so exact rational arithmetic decides identically. -/
def chooseMethod (nRuns nLines : Nat) : String :=
  if nLines == 0 then "paragraphs"
  else
    let ratio : ℚ := (nRuns : ℚ) / (nLines : ℚ)
    let diff : Nat := (Int.natAbs ((nRuns : Int) - (nLines : Int)))
    if 0.90 ≤ ratio ∧ ratio ≤ 1.15 ∧ diff ≤ 2 then "runs" else "paragraphs"

structure HybridOutcome where
  method : String
  nRuns : Nat
  outcome : PatchOutcome

/-- Model of _patch_slide_hybrid: count the a:t units, choose the method
from that count and the supplied line count, run the chosen patch. -/
def patchSlideHybrid (root : Xml) (txtLines : List String) : HybridOutcome :=
  let nRuns := (findRuns root).length
  let method := chooseMethod nRuns txtLines.length
  if method == "runs" then ⟨method, nRuns, patchSlideRuns root txtLines⟩
  else ⟨method, nRuns, patchSlideParagraphs root txtLines⟩

/-- Model of the per-slide loop of reintegrate_translated_slide_text.  Each
slide is given as the outcome of parsing its XML part (an unhandled parse
exception is modelled as Except.error, which the loop has no handler for and
therefore propagates, aborting the remaining slides) together with the lines
read from its LineFile (empty for a missing or empty file, which skips the
slide).  Returns the number of slides counted as modified. -/
def reintegrateLoop : List (Except String Xml × List String) → Nat → Except String Nat
  | [], modified => .ok modified
  | s :: rest, modified =>
    if s.2.isEmpty then reintegrateLoop rest modified
    else
      match s.1 with
      | .error e => .error e
      | .ok root =>
        let h := patchSlideHybrid root s.2
        reintegrateLoop rest (if h.outcome.count > 0 then modified + 1 else modified)

def reintegrateTranslatedSlideText
    (slides : List (Except String Xml × List String)) : Except String Nat :=
  reintegrateLoop slides 0

-- ---------------------------------------------------------------------------
-- The container rewrites, modelled as filesystem operation traces
-- ---------------------------------------------------------------------------

/-- On-disk state of one zip container path: the entries written so far and
whether the archive was completed (the central directory written on close).
A freshly opened "w" archive is empty and incomplete. -/
structure ZipFileSt where
  entries : List (String × String)
  finalized : Bool
deriving DecidableEq

/-- The filesystem operations the two repackaging code paths perform on
container paths.  zipfile.ZipFile(path, "w") truncates or creates the file
(truncateOpen); zout.write adds one entry (appendEntry); closing the archive
completes it (finalize); shutil.move replaces the destination with the source
(move). -/
inductive FsOp where
  | truncateOpen (path : String)
  | appendEntry (path name data : String)
  | finalize (path : String)
  | move (src dst : String)

def FsState : Type := String → Option ZipFileSt

def FsState.update (sigma : FsState) (p : String) (v : Option ZipFileSt) : FsState :=
  fun q => if q = p then v else sigma q

def applyOp (sigma : FsState) : FsOp → FsState
  | .truncateOpen p => sigma.update p (some ⟨[], false⟩)
  | .appendEntry p n d =>
    match sigma p with
    | some z => sigma.update p (some ⟨z.entries ++ [(n, d)], z.finalized⟩)
    | none => sigma
  | .finalize p =>
    match sigma p with
    | some z => sigma.update p (some ⟨z.entries, true⟩)
    | none => sigma
  | .move s d => (FsState.update (sigma.update d (sigma s)) s none)

def runOps (sigma : FsState) : List FsOp → FsState
  | [] => sigma
  | op :: ops => runOps (applyOp sigma op) ops

/-- The container-level operations of the repackaging step of
reintegrate_translated_slide_text (lines 266 to 269): the output container is
opened with zipfile.ZipFile(pptx_out, "w") — truncating whatever was at that
path, including the input container when pptx_out equals pptx_in as in
reintegrate_text_and_audio — then the working-tree files are written one by
one, and the archive is completed on close. -/
def textReintegrationRepackageOps (pptxOut : String)
    (entries : List (String × String)) : List FsOp :=
  .truncateOpen pptxOut ::
    (entries.map (fun e => FsOp.appendEntry pptxOut e.1 e.2) ++ [.finalize pptxOut])

/-- pptx_path.with_suffix(".tmp.pptx") for a path ending in ".pptx". -/
def tmpPptxName (p : String) : String :=
  String.mk ((p.data.take (p.data.length - 5)) ++ ".tmp.pptx".data)

/-- The container-level operations of the repackaging step of
reintegrate_audio_to_pptx (lines 304 to 309): the new archive is fully
written at the temporary .tmp.pptx name, then shutil.move replaces the
original container with it. -/
def audioReintegrationRepackageOps (pptxPath : String)
    (entries : List (String × String)) : List FsOp :=
  .truncateOpen (tmpPptxName pptxPath) ::
    (entries.map (fun e => FsOp.appendEntry (tmpPptxName pptxPath) e.1 e.2) ++
      [.finalize (tmpPptxName pptxPath), .move (tmpPptxName pptxPath) pptxPath])

/-- The set of paths an operation can change. -/
def FsOp.writesPath (op : FsOp) (q : String) : Prop :=
  match op with
  | .truncateOpen p => q = p
  | .appendEntry p _ _ => q = p
  | .finalize p => q = p
  | .move s d => q = s ∨ q = d

-- ---------------------------------------------------------------------------
-- Claim-side definitions (written from the specification's words, for the
-- refinement claims) and structural erasures used by the theorems
-- ---------------------------------------------------------------------------

/-- Modelled from the claim: if the supplied line count is zero the method is
paragraph-level; otherwise the method is run-level exactly when 0.90 is at
most n_runs over n_lines, that ratio is at most 1.15, and the absolute
difference of the two counts is at most 2; paragraph-level in every other
case. -/
def chooseMethodClaim (nRuns nLines : Nat) : String :=
  if nLines = 0 then "paragraphs"
  else if (9 : ℚ) / 10 ≤ (nRuns : ℚ) / (nLines : ℚ)
      ∧ (nRuns : ℚ) / (nLines : ℚ) ≤ 23 / 20
      ∧ |(nRuns : ℤ) - (nLines : ℤ)| ≤ 2
    then "runs" else "paragraphs"

/-- Modelled from the claim: the explicit bullet of a paragraph, when its
properties carry a buChar with a non-empty character. -/
def claimExplicitBullet (p : Xml) : Option String :=
  match findChild "a:pPr" p with
  | some pr =>
    match findChild "a:buChar" pr with
    | some bu =>
      match bu.attr "char" with
      | some ch => if ch = "" then none else some ch
      | none => none
    | none => none
  | none => none

/-- Modelled from the claim: the bullet inherited from the text body's
list-style at nesting level + 1 clamped to the range 1 to 9. -/
def claimInheritedBullet (p : Xml) (lstStyle : Option Xml) : Option String :=
  match lstStyle with
  | some ls =>
    let k : Int := min 9 (max 1 (paragraphLevel (findChild "a:pPr" p) + 1))
    match findChild ("a:lvl" ++ toString k ++ "pPr") ls with
    | some lvlPPr =>
      match findChild "a:buChar" lvlPPr with
      | some bu =>
        match bu.attr "char" with
        | some ch => if ch = "" then none else some ch
        | none => none
      | none => none
    | none => none
  | none => none

/-- Modelled from the claim: the separating space after a bullet is
suppressed exactly when the text begins with colon, semicolon, period, comma,
closing paren, a dash variant, middle dot, or a space. -/
def claimSpaceSuppressed (body : String) : Bool :=
  match body.data with
  | [] => false
  | c :: _ => c ∈ [':', ';', '.', ',', ')', '-', '—', '·', ' ']

/-- Modelled from the claim: a non-empty resolved bullet (explicit, else
inherited, else none) is prefixed to the paragraph text with a single
separating space, suppressed for the listed starting characters. -/
def claimParagraphLine (p : Xml) (lstStyle : Option Xml) : String :=
  let body := paragraphBodyText p
  match (claimExplicitBullet p).orElse (fun _ => claimInheritedBullet p lstStyle) with
  | some b => b ++ (if claimSpaceSuppressed body then "" else " ") ++ body
  | none => body

mutual

/-- Erase every text field and the xml:space attribute of every a:t element,
keeping everything else: two trees with the same erasure differ at most in
the data the patch methods are allowed to touch at paragraph level. -/
def normList : List Xml → List Xml
  | [] => []
  | x :: xs => normOne x :: normList xs

def normOne : Xml → Xml
  | .elem tag attrs _ cs =>
    .elem tag
      (if tag == "a:t" then attrs.filter (fun pr => pr.1 != "xml:space") else attrs)
      "" (normList cs)

end

mutual

/-- Number of elements with the given tag in a forest (the tree's paragraph
count when applied to "a:p"). -/
def countTagList (tag : String) : List Xml → Nat
  | [] => 0
  | x :: xs => countTagOne tag x + countTagList tag xs

def countTagOne (tag : String) : Xml → Nat
  | .elem t _ _ cs => (if t == tag then 1 else 0) + countTagList tag cs

end

mutual

/-- Well-formedness of real slide XML used by the run-level analysis: a:t
elements carry only character data, never child elements. -/
def aTLeafList : List Xml → Bool
  | [] => true
  | x :: xs => aTLeafOne x && aTLeafList xs

def aTLeafOne : Xml → Bool
  | .elem tag _ _ cs => (tag != "a:t" || cs.isEmpty) && aTLeafList cs

end

mutual

/-- The eligible-unit erasure matching the node set of eligTsList: eligible
a:t elements lose their text and xml:space attribute, everything else is
kept verbatim.  Two paragraphs with the same erasure agree on all breaks,
tabs, math subtrees, and every other byte outside the patched fields. -/
def skelList (inMath parentEligRun : Bool) : List Xml → List Xml
  | [] => []
  | x :: xs => skelOne inMath parentEligRun x :: skelList inMath parentEligRun xs

def skelOne (inMath parentEligRun : Bool) : Xml → Xml
  | .elem tag attrs text cs =>
    let inM := inMath || isMathTag tag
    let eligR := tag == "a:r" && !inMath
    if tag == "a:t" && parentEligRun then
      .elem tag (attrs.filter (fun pr => pr.1 != "xml:space")) "" (skelList inM eligR cs)
    else
      .elem tag attrs text (skelList inM eligR cs)

end

/-- The eligible-unit erasure of one paragraph element. -/
def skelParagraph (p : Xml) : Xml :=
  p.withChildren (skelList (isMathTag p.tag) false p.children)

/-- The attribute-and-text view of the eligible units of a forest, used to
state what the math-preserving replacement does to them. -/
def eligMetaList (inMath parentEligRun : Bool) (cs : List Xml) :
    List (List (String × String) × String) :=
  (eligTsList inMath parentEligRun cs).map (fun t => (t.attrs, t.text))

def eligMetaOne (inMath parentEligRun : Bool) (x : Xml) :
    List (List (String × String) × String) :=
  (eligTsOne inMath parentEligRun x).map (fun t => (t.attrs, t.text))

def blankMeta (l : List (List (String × String) × String)) :
    List (List (String × String) × String) :=
  l.map (fun pr => (pr.1, ""))

def writeFirstMeta (newText : String) (l : List (List (String × String) × String)) :
    List (List (String × String) × String) :=
  match l with
  | [] => []
  | (a, _) :: rest => (setXmlSpacePreserve a, newText) :: blankMeta rest

/-- The visible plain text of each collected paragraph of a slide. -/
def paragraphVisibleTexts (root : Xml) : List String :=
  (collectParagraphs root).map visiblePlaintextOutsideMath

-- ---------------------------------------------------------------------------
-- Concrete slide fixtures used by counterexamples and witnesses
-- ---------------------------------------------------------------------------

/-- A slide with one shape, one bulleted paragraph, one run reading "x". -/
def slideBullet : Xml :=
  .elem "p:sld" [] "" [
    .elem "p:cSld" [] "" [
      .elem "p:spTree" [] "" [
        .elem "p:sp" [] "" [
          .elem "p:txBody" [] "" [
            .elem "a:p" [] "" [
              .elem "a:pPr" [] "" [.elem "a:buChar" [("char", "•")] "" []],
              .elem "a:r" [] "" [.elem "a:t" [] "x" []]]]]]]]

/-- A slide with one plain paragraph containing the single run "hello". -/
def slideSimple : Xml :=
  .elem "p:sld" [] "" [
    .elem "p:cSld" [] "" [
      .elem "p:spTree" [] "" [
        .elem "p:sp" [] "" [
          .elem "p:txBody" [] "" [
            .elem "a:p" [] "" [
              .elem "a:r" [] "" [.elem "a:t" [] "hello" []]]]]]]]

/-- A paragraph whose only run text is a single space (visible plain text is
non-empty but strips to empty). -/
def paraSpaceOnly : Xml :=
  .elem "a:p" [] "" [.elem "a:r" [] "" [.elem "a:t" [] " " []]]

/-- A paragraph with two plain runs. -/
def paraTwoRuns : Xml :=
  .elem "a:p" [] "" [
    .elem "a:r" [] "" [.elem "a:t" [] "hello" []],
    .elem "a:r" [] "" [.elem "a:t" [] "world" []]]

/-- A date-placeholder shape holding the run "01/02/2024". -/
def spDatePh : Xml :=
  .elem "p:sp" [] "" [
    .elem "p:nvSpPr" [] "" [
      .elem "p:nvPr" [] "" [.elem "p:ph" [("type", "dt")] "" []]],
    .elem "p:txBody" [] "" [
      .elem "a:p" [] "" [
        .elem "a:r" [] "" [.elem "a:t" [] "01/02/2024" []]]]]

/-- A slide whose only shape is the date placeholder. -/
def slideDatePh : Xml :=
  .elem "p:sld" [] "" [
    .elem "p:cSld" [] "" [
      .elem "p:spTree" [] "" [spDatePh]]]

/-- A slide with one paragraph reading "a", a tab marker, then "b". -/
def slideTab : Xml :=
  .elem "p:sld" [] "" [
    .elem "p:cSld" [] "" [
      .elem "p:spTree" [] "" [
        .elem "p:sp" [] "" [
          .elem "p:txBody" [] "" [
            .elem "a:p" [] "" [
              .elem "a:r" [] "" [
                .elem "a:t" [] "a" [],
                .elem "a:tab" [] "" [],
                .elem "a:t" [] "b" []]]]]]]]

/-- A filesystem holding one completed container at deck.pptx. -/
def fsBefore : FsState :=
  fun q =>
    if q = "deck.pptx" then some ⟨[("ppt/slides/slide1.xml", "old")], true⟩ else none

-- ---------------------------------------------------------------------------
-- Theorems
-- ---------------------------------------------------------------------------

/-- C4: patch-method selection is a deterministic function of the slide's
count of minimal text-bearing inline units and the supplied line count: if
n_lines = 0 the method is paragraph-level; otherwise the method is run-level
exactly when 0.90 <= n_runs / n_lines <= 1.15 and the absolute difference of
the counts is at most 2, and paragraph-level in every other case. -/
theorem chooseMethod_eq_claim (nRuns nLines : Nat) :
    chooseMethod nRuns nLines = chooseMethodClaim nRuns nLines := by
  unfold chooseMethod chooseMethodClaim
  by_cases h : nLines = 0
  · simp [h]
  · simp only [beq_iff_eq, h, if_false, if_neg h]
    refine if_congr ?_ rfl rfl
    have h9 : (0.90 : ℚ) = 9 / 10 := by norm_num
    have h115 : (1.15 : ℚ) = 23 / 20 := by norm_num
    rw [h9, h115]
    refine and_congr Iff.rfl (and_congr Iff.rfl ?_)
    rw [Int.abs_eq_natAbs]
    exact ⟨fun hh => by exact_mod_cast hh, fun hh => by exact_mod_cast hh⟩

theorem adjustLines_length (lines : List String) (n : Nat) :
    (adjustLines lines n).1.length = n := by
  unfold adjustLines
  split
  · simp; omega
  · split
    · simp; omega
    · simp; omega

theorem adjustLines_log (lines : List String) (n : Nat) :
    (adjustLines lines n).2 =
      if n < lines.length then [LogMsg.warnTruncated (lines.length - n)] else [] := by
  by_cases h1 : lines.length < n
  · simp only [adjustLines, if_pos h1]
    rw [if_neg (by omega)]
  · by_cases h2 : lines.length > n
    · have h3 : n < lines.length := h2
      simp only [adjustLines, if_neg h1, if_pos h2, if_pos h3]
    · have h3 : ¬ n < lines.length := by omega
      simp only [adjustLines, if_neg h1, if_neg h2, if_neg h3]

theorem adjustLines_pad (lines : List String) (n : Nat) (h : lines.length ≤ n) :
    (adjustLines lines n).1 = lines ++ List.replicate (n - lines.length) "" := by
  unfold adjustLines
  split
  · rfl
  · split
    · omega
    · have : n - lines.length = 0 := by omega
      simp [this]

theorem adjustLines_trunc (lines : List String) (n : Nat) (h : n ≤ lines.length) :
    (adjustLines lines n).1 = lines.take n := by
  unfold adjustLines
  split
  · omega
  · split
    · rfl
    · have hn : lines.length = n := by omega
      simp [← hn]

/-- C9: for every slide patched by either method, the supplied line list is
padded with empty strings when shorter than the structural unit count and
truncated to that count when longer, so exactly one line is applied per
structural unit, and a warning carrying the number of dropped lines is
reported exactly on truncation (for the paragraph method, on slides that
have at least one structural paragraph; a slide with none is a no-op). -/
theorem padTruncate_policy (root : Xml) (lines : List String) :
    ((adjustLines lines ((findRuns root).length)).1.length = (findRuns root).length
      ∧ (lines.length ≤ (findRuns root).length →
          (adjustLines lines ((findRuns root).length)).1 =
            lines ++ List.replicate ((findRuns root).length - lines.length) "")
      ∧ ((findRuns root).length ≤ lines.length →
          (adjustLines lines ((findRuns root).length)).1 =
            lines.take ((findRuns root).length))
      ∧ (patchSlideRuns root lines).log =
          (if (findRuns root).length < lines.length
           then [LogMsg.warnTruncated (lines.length - (findRuns root).length)] else []))
    ∧ ((collectParagraphs root).length ≠ 0 →
        (adjustLines lines ((collectParagraphs root).length)).1.length =
            (collectParagraphs root).length
          ∧ (patchSlideParagraphs root lines).log =
            (if (collectParagraphs root).length < lines.length
             then [LogMsg.warnTruncated (lines.length - (collectParagraphs root).length)]
             else [])) := by
  constructor
  · refine ⟨adjustLines_length _ _, adjustLines_pad _ _, adjustLines_trunc _ _, ?_⟩
    show (adjustLines lines ((findRuns root).length)).2 = _
    exact adjustLines_log _ _
  · intro hn
    refine ⟨adjustLines_length _ _, ?_⟩
    unfold patchSlideParagraphs
    rw [if_neg (by simpa using hn)]
    exact adjustLines_log _ _

/-- Witness for padTruncate_policy: the one-paragraph slide with three
supplied lines is truncated with a warning reporting two dropped lines. -/
theorem padTruncate_policy_witness :
    (collectParagraphs slideSimple).length ≠ 0 ∧
      (patchSlideParagraphs slideSimple ["a", "b", "c"]).log = [LogMsg.warnTruncated 2] :=
  ⟨by decide,
    ((padTruncate_policy slideSimple ["a", "b", "c"]).2 (by decide)).2.trans (by decide)⟩

theorem escapeNewlines_no_newline (s : String) : '\n' ∉ (escapeNewlines s).data := by
  intro hmem
  have hmem' : '\n' ∈ s.data.flatMap (fun c => if c == '\n' then ['\\', 'n'] else [c]) := hmem
  rw [List.mem_flatMap] at hmem'
  obtain ⟨c, _, hc⟩ := hmem'
  by_cases h : c = '\n'
  · rw [h] at hc
    simp at hc
  · simp [h] at hc
    exact h hc.symm

/-- C7 (amended): every extracted LineFile has exactly one text line per
paragraph, and every line break embedded inside a paragraph is encoded as the
two-character literal backslash-n, so no line of the file contains a real
newline character; embedded tabs, however, are emitted as real tab
characters, not as the two-character literal backslash-t. -/
theorem lineFile_one_line_per_paragraph (root : Xml) (l : String)
    (hl : l ∈ slideLineFileLines root) :
    (slideLineFileLines root).length = (iterAllParagraphsFromSlideXml root).length
    ∧ '\n' ∉ l.data := by
  constructor
  · exact List.length_map _ _
  · obtain ⟨s, _, rfl⟩ := List.mem_map.mp hl
    exact escapeNewlines_no_newline s

/-- Witness for lineFile_one_line_per_paragraph at the bulleted slide. -/
theorem lineFile_one_line_per_paragraph_witness :
    ("• x" ∈ slideLineFileLines slideBullet)
    ∧ '\n' ∉ ("• x" : String).data :=
  ⟨by decide, (lineFile_one_line_per_paragraph slideBullet "• x" (by decide)).2⟩

/-- C7 counterexample: a paragraph containing a tab marker between the runs
"a" and "b" is extracted to a line holding a real tab control character, not
the two-character literal sequence. -/
theorem lineFile_tab_not_escaped :
    slideLineFileLines slideTab = ["a\tb"]
    ∧ '\t' ∈ ("a\tb" : String).data
    ∧ ("a\tb" : String) ≠ "a\\tb" := by decide

theorem FsState.update_neq (sigma : FsState) (p : String) (v : Option ZipFileSt)
    (q : String) (h : q ≠ p) : sigma.update p v q = sigma q := if_neg h

theorem applyOp_preserve (sigma : FsState) (op : FsOp) (q : String)
    (h : ¬ op.writesPath q) : applyOp sigma op q = sigma q := by
  cases op with
  | truncateOpen p =>
    exact FsState.update_neq sigma p _ q (by simpa [FsOp.writesPath] using h)
  | appendEntry p n d =>
    simp only [applyOp]
    cases hsp : sigma p with
    | none => rfl
    | some z => exact FsState.update_neq sigma p _ q (by simpa [FsOp.writesPath] using h)
  | finalize p =>
    simp only [applyOp]
    cases hsp : sigma p with
    | none => rfl
    | some z => exact FsState.update_neq sigma p _ q (by simpa [FsOp.writesPath] using h)
  | move s d =>
    simp only [FsOp.writesPath] at h
    push_neg at h
    simp only [applyOp]
    rw [FsState.update_neq _ _ _ _ h.1, FsState.update_neq _ _ _ _ h.2]

theorem runOps_preserve (q : String) : ∀ (ops : List FsOp) (sigma : FsState),
    (∀ op ∈ ops, ¬ op.writesPath q) → runOps sigma ops q = sigma q
  | [], _, _ => rfl
  | op :: ops, sigma, h => by
    rw [runOps,
      runOps_preserve q ops (applyOp sigma op) (fun o ho => h o (List.mem_cons_of_mem _ ho))]
    exact applyOp_preserve sigma op q (h op (List.mem_cons_self _ _))

theorem runOps_nil (sigma : FsState) : runOps sigma [] = sigma := rfl

theorem runOps_cons (sigma : FsState) (op : FsOp) (ops : List FsOp) :
    runOps sigma (op :: ops) = runOps (applyOp sigma op) ops := rfl

theorem runOps_append (bs : List FsOp) : ∀ (as : List FsOp) (sigma : FsState),
    runOps sigma (as ++ bs) = runOps (runOps sigma as) bs
  | [], _ => rfl
  | a :: as, sigma => by
    rw [List.cons_append, runOps, runOps, runOps_append bs as]

theorem runOps_appendEntries (t : String) :
    ∀ (es : List (String × String)) (sigma : FsState) (acc : List (String × String)),
      sigma t = some ⟨acc, false⟩ →
      runOps sigma (es.map (fun e => FsOp.appendEntry t e.1 e.2)) t = some (⟨acc ++ es, false⟩ : ZipFileSt)
  | [], sigma, acc, h => by simpa using h
  | e :: es, sigma, acc, h => by
    rw [List.map_cons, runOps]
    have h1 : applyOp sigma (FsOp.appendEntry t e.1 e.2) t = some ⟨acc ++ [e], false⟩ := by
      simp only [applyOp, h, FsState.update]
      simp
    rw [runOps_appendEntries t es _ (acc ++ [e]) h1]
    simp

theorem audioOps_front_writes_only_tmp (p : String) (es : List (String × String))
    (op : FsOp)
    (hop : op ∈ FsOp.truncateOpen (tmpPptxName p) ::
      (es.map (fun e => FsOp.appendEntry (tmpPptxName p) e.1 e.2) ++
        [FsOp.finalize (tmpPptxName p)]))
    (q : String) (hq : q ≠ tmpPptxName p) : ¬ op.writesPath q := by
  rcases List.mem_cons.mp hop with rfl | hop'
  · simpa [FsOp.writesPath] using hq
  · rcases List.mem_append.mp hop' with hm | hf
    · obtain ⟨e, _, rfl⟩ := List.mem_map.mp hm
      simpa [FsOp.writesPath] using hq
    · rw [List.mem_singleton.mp hf]
      simpa [FsOp.writesPath] using hq

/-- C2 (amended): the audio-reintegration rewrite is all-or-nothing: the new
archive is fully built at the temporary .tmp.pptx name and only the final
move touches the original container, so a failure at any earlier point of the
trace leaves the original byte-identical, and the completed trace replaces it
with the completed new archive.  The text-reintegration rewrite does not
share this shape: it opens the output container path itself with mode "w"
(see the counterexample). -/
theorem audioRewrite_atomic (p : String) (entries : List (String × String))
    (sigma : FsState) (k : Nat) (hname : tmpPptxName p ≠ p)
    (hk : k < (audioReintegrationRepackageOps p entries).length) :
    runOps sigma ((audioReintegrationRepackageOps p entries).take k) p = sigma p
    ∧ runOps sigma (audioReintegrationRepackageOps p entries) p =
        some (⟨entries, true⟩ : ZipFileSt) := by
  have hsplit : audioReintegrationRepackageOps p entries =
      (FsOp.truncateOpen (tmpPptxName p) ::
        (entries.map (fun e => FsOp.appendEntry (tmpPptxName p) e.1 e.2) ++
          [FsOp.finalize (tmpPptxName p)])) ++ [FsOp.move (tmpPptxName p) p] := by
    simp [audioReintegrationRepackageOps]
  constructor
  · have hlen : k ≤ (FsOp.truncateOpen (tmpPptxName p) ::
        (entries.map (fun e => FsOp.appendEntry (tmpPptxName p) e.1 e.2) ++
          [FsOp.finalize (tmpPptxName p)])).length := by
      have := hk
      rw [hsplit] at this
      simp only [List.length_append, List.length_cons] at this ⊢
      simpa using Nat.lt_succ_iff.mp (by simpa using this)
    rw [hsplit, List.take_append_of_le_length hlen]
    refine runOps_preserve p _ sigma (fun op hop => ?_)
    exact audioOps_front_writes_only_tmp p entries op (List.take_subset _ _ hop) p
      (fun h => hname h.symm)
  · have h1 : applyOp sigma (FsOp.truncateOpen (tmpPptxName p)) (tmpPptxName p) =
        some (⟨[], false⟩ : ZipFileSt) := by
      simp [applyOp, FsState.update]
    have h2 : runOps (applyOp sigma (FsOp.truncateOpen (tmpPptxName p)))
        (entries.map (fun e => FsOp.appendEntry (tmpPptxName p) e.1 e.2)) (tmpPptxName p) =
        some ⟨entries, false⟩ := by
      simpa using runOps_appendEntries (tmpPptxName p) entries _ [] h1
    have hfront : runOps sigma (FsOp.truncateOpen (tmpPptxName p) ::
        (entries.map (fun e => FsOp.appendEntry (tmpPptxName p) e.1 e.2) ++
          [FsOp.finalize (tmpPptxName p)])) (tmpPptxName p) =
        some (⟨entries, true⟩ : ZipFileSt) := by
      rw [runOps_cons, runOps_append, runOps_cons, runOps_nil]
      have h2x := h2
      simp only [applyOp] at h2x ⊢
      rw [h2x]
      simp [FsState.update]
    rw [hsplit, runOps_append, runOps_cons, runOps_nil]
    simp only [applyOp]
    rw [FsState.update_neq _ _ _ _ (fun hh => hname hh.symm)]
    simp [FsState.update, hfront]

/-- Witness for audioRewrite_atomic: a one-entry audio rewrite of deck.pptx
interrupted after its first operation leaves deck.pptx untouched. -/
theorem audioRewrite_atomic_witness :
    tmpPptxName "deck.pptx" ≠ "deck.pptx"
    ∧ 1 < (audioReintegrationRepackageOps "deck.pptx" [("ppt/media/media3.m4a", "tts")]).length
    ∧ runOps fsBefore ((audioReintegrationRepackageOps "deck.pptx"
        [("ppt/media/media3.m4a", "tts")]).take 1) "deck.pptx" = fsBefore "deck.pptx" :=
  ⟨by decide, by decide,
    (audioRewrite_atomic "deck.pptx" [("ppt/media/media3.m4a", "tts")] fsBefore 1
      (by decide) (by decide)).1⟩

/-- C2 counterexample: the text-reintegration repackage opens the output
container itself in "w" mode, so the trace interrupted right after that open
leaves the container truncated and incomplete rather than byte-identical to
its pre-operation state; with output equal to input (as in
reintegrate_text_and_audio) the original container is lost. -/
theorem textRewrite_midfailure_changes_container :
    runOps fsBefore ((textReintegrationRepackageOps "deck.pptx"
        [("ppt/slides/slide1.xml", "new")]).take 1) "deck.pptx" ≠ fsBefore "deck.pptx" := by
  decide

theorem reintegrateLoop_aborts :
    ∀ (pre : List (Except String Xml × List String)) (m : Nat) (e : String)
      (ls : List String) (post : List (Except String Xml × List String)),
      (∀ s ∈ pre, s.2.isEmpty = true ∨ ∃ x, s.1 = Except.ok x) → ls ≠ [] →
      reintegrateLoop (pre ++ (Except.error e, ls) :: post) m = Except.error e
  | [], m, e, ls, post, _, hls => by
    have hne : ls.isEmpty = false := by
      cases ls with
      | nil => exact absurd rfl hls
      | cons a as => rfl
    simp [reintegrateLoop, hne]
  | s :: pre, m, e, ls, post, hpre, hls => by
    rcases hpre s (List.mem_cons_self _ _) with hemp | ⟨x, hx⟩
    · rw [List.cons_append, reintegrateLoop, if_pos hemp]
      exact reintegrateLoop_aborts pre m e ls post
        (fun t ht => hpre t (List.mem_cons_of_mem _ ht)) hls
    · by_cases hemp : s.2.isEmpty
      · rw [List.cons_append, reintegrateLoop, if_pos hemp]
        exact reintegrateLoop_aborts pre m e ls post
          (fun t ht => hpre t (List.mem_cons_of_mem _ ht)) hls
      · rw [List.cons_append, reintegrateLoop, if_neg hemp, hx]
        exact reintegrateLoop_aborts pre _ e ls post
          (fun t ht => hpre t (List.mem_cons_of_mem _ ht)) hls

/-- C3 (amended): an XML parse failure on one slide whose LineFile is
non-empty is not isolated: the parse exception propagates out of the per-slide
loop, aborting the reintegration of every later slide, and no patched count
is returned at all (earlier slides whose parts parsed, or that were skipped
for an empty LineFile, have already been processed when the failure hits). -/
theorem parseFailure_aborts (pre post : List (Except String Xml × List String))
    (e : String) (ls : List String)
    (hpre : ∀ s ∈ pre, s.2.isEmpty = true ∨ ∃ x, s.1 = Except.ok x)
    (hls : ls ≠ []) :
    reintegrateTranslatedSlideText (pre ++ (Except.error e, ls) :: post) =
      Except.error e :=
  reintegrateLoop_aborts pre 0 e ls post hpre hls

/-- Witness for parseFailure_aborts: a malformed first slide aborts the
whole run with its parse error. -/
theorem parseFailure_aborts_witness :
    (["y"] : List String) ≠ []
    ∧ reintegrateTranslatedSlideText ([] ++ (Except.error "boom", ["y"]) :: []) =
        Except.error "boom" :=
  ⟨by decide,
    parseFailure_aborts [] [] "boom" ["y"] (fun s hs => absurd hs (List.not_mem_nil s))
      (by decide)⟩

/-- C3 counterexample: with a well-formed slide, then a slide whose part
fails to parse, then another well-formed slide — each with a non-empty
LineFile — the orchestration returns the parse error: the third slide is
never processed and the returned value is not the count 2 of successfully
patched slides the claim requires. -/
theorem parseFailure_not_isolated :
    reintegrateTranslatedSlideText
        [(Except.ok slideSimple, ["hi"]),
         (Except.error "slide2.xml parse error", ["there"]),
         (Except.ok slideSimple, ["again"])]
      = Except.error "slide2.xml parse error"
    ∧ reintegrateTranslatedSlideText
        [(Except.ok slideSimple, ["hi"]),
         (Except.error "slide2.xml parse error", ["there"]),
         (Except.ok slideSimple, ["again"])]
      ≠ Except.ok 2 := by
  have h1 : reintegrateTranslatedSlideText
      [(Except.ok slideSimple, ["hi"]),
       (Except.error "slide2.xml parse error", ["there"]),
       (Except.ok slideSimple, ["again"])]
      = Except.error "slide2.xml parse error" := rfl
  refine ⟨h1, fun h => ?_⟩
  rw [h1] at h
  simp at h

theorem eligMetaList_nil (im pe : Bool) : eligMetaList im pe [] = [] := rfl

theorem eligMetaList_cons (im pe : Bool) (x : Xml) (xs : List Xml) :
    eligMetaList im pe (x :: xs) = eligMetaOne im pe x ++ eligMetaList im pe xs := by
  simp [eligMetaList, eligMetaOne, eligTsList]

theorem blankMeta_append (a b : List (List (String × String) × String)) :
    blankMeta (a ++ b) = blankMeta a ++ blankMeta b := by
  simp [blankMeta]

theorem writeFirstMeta_append (newText : String)
    (a b : List (List (String × String) × String)) :
    writeFirstMeta newText (a ++ b) =
      if a.isEmpty then writeFirstMeta newText b
      else writeFirstMeta newText a ++ blankMeta b := by
  cases a with
  | nil => simp [writeFirstMeta]
  | cons h t =>
    simp only [List.cons_append, writeFirstMeta, List.isEmpty_cons, blankMeta_append]
    rfl

theorem eligMetaOne_isEmpty_iff (im pe : Bool) (x : Xml) :
    eligMetaOne im pe x = [] ↔ eligTsOne im pe x = [] := by
  unfold eligMetaOne
  exact List.map_eq_nil_iff

theorem eligTsOne_elem (im pe : Bool) (tag : String) (attrs : List (String × String))
    (text : String) (cs : List Xml) :
    eligTsOne im pe (.elem tag attrs text cs) =
      (if tag == "a:t" && pe then [Xml.elem tag attrs text cs] else []) ++
        eligTsList (im || isMathTag tag) (tag == "a:r" && !im) cs := rfl

theorem eligMetaOne_elem (im pe : Bool) (tag : String) (attrs : List (String × String))
    (text : String) (cs : List Xml) :
    eligMetaOne im pe (.elem tag attrs text cs) =
      (if tag == "a:t" && pe then [(attrs, text)] else []) ++
        eligMetaList (im || isMathTag tag) (tag == "a:r" && !im) cs := by
  unfold eligMetaOne eligMetaList
  rw [eligTsOne_elem]
  by_cases h : (tag == "a:t" && pe) = true
  · simp [h, Xml.attrs, Xml.text]
  · simp [h]

theorem rpOne_elem_t_first (newText : String) (im pe : Bool) (tag : String)
    (attrs : List (String × String)) (text : String) (cs : List Xml)
    (hT : (tag == "a:t" && pe) = true) :
    rpOne newText im pe true (.elem tag attrs text cs) =
      (.elem tag (setXmlSpacePreserve attrs) newText
        (rpList newText (im || isMathTag tag) (tag == "a:r" && !im) false cs).1, false) := by
  simp [rpOne, hT]

theorem rpOne_elem_t_rest (newText : String) (im pe : Bool) (tag : String)
    (attrs : List (String × String)) (text : String) (cs : List Xml)
    (hT : (tag == "a:t" && pe) = true) :
    rpOne newText im pe false (.elem tag attrs text cs) =
      (.elem tag attrs ""
        (rpList newText (im || isMathTag tag) (tag == "a:r" && !im) false cs).1, false) := by
  simp [rpOne, hT]

theorem rpOne_elem_not_t (newText : String) (im pe f : Bool) (tag : String)
    (attrs : List (String × String)) (text : String) (cs : List Xml)
    (hT : (tag == "a:t" && pe) = false) :
    rpOne newText im pe f (.elem tag attrs text cs) =
      (.elem tag attrs text
          (rpList newText (im || isMathTag tag) (tag == "a:r" && !im) f cs).1,
        (rpList newText (im || isMathTag tag) (tag == "a:r" && !im) f cs).2) := by
  simp [rpOne, hT]

theorem isEmptyXmlList_append (l1 l2 : List Xml) :
    (l1 ++ l2).isEmpty = (l1.isEmpty && l2.isEmpty) := by
  cases l1 <;> cases l2 <;> rfl

mutual

theorem rpList_eligMeta (newText : String) :
    ∀ (im pe f : Bool) (cs : List Xml),
      eligMetaList im pe (rpList newText im pe f cs).1 =
        (if f then writeFirstMeta newText (eligMetaList im pe cs)
         else blankMeta (eligMetaList im pe cs))
      ∧ (rpList newText im pe f cs).2 = (f && (eligTsList im pe cs).isEmpty)
  | im, pe, f, [] => by
    cases f <;> simp [rpList, eligMetaList, eligTsList, writeFirstMeta, blankMeta]
  | im, pe, f, x :: xs => by
    obtain ⟨h1a, h1b⟩ := rpOne_eligMeta newText im pe f x
    obtain ⟨h2a, h2b⟩ := rpList_eligMeta newText im pe (rpOne newText im pe f x).2 xs
    constructor
    · show eligMetaList im pe ((rpOne newText im pe f x).1 ::
          (rpList newText im pe (rpOne newText im pe f x).2 xs).1) = _
      rw [eligMetaList_cons, h1a, h2a, h1b, eligMetaList_cons]
      cases f with
      | false => simp [blankMeta_append]
      | true =>
        by_cases he : (eligTsOne im pe x).isEmpty = true
        · have hme : eligMetaOne im pe x = [] :=
            (eligMetaOne_isEmpty_iff im pe x).mpr (List.isEmpty_iff.mp he)
          simp [he, hme, writeFirstMeta]
        · have hff : (eligTsOne im pe x).isEmpty = false := by
            cases hh : (eligTsOne im pe x).isEmpty
            · rfl
            · exact absurd hh he
          have hme : (eligMetaOne im pe x).isEmpty = false := by
            cases hh : (eligMetaOne im pe x).isEmpty
            · rfl
            · exfalso
              have h3 := List.isEmpty_iff.mp hh
              rw [eligMetaOne_isEmpty_iff] at h3
              rw [h3] at hff
              simp at hff
          simp [hff, hme, writeFirstMeta_append]
    · show (rpList newText im pe (rpOne newText im pe f x).2 xs).2 = _
      rw [h2b, h1b]
      show _ = (f && (eligTsOne im pe x ++ eligTsList im pe xs).isEmpty)
      rw [isEmptyXmlList_append, Bool.and_assoc]

theorem rpOne_eligMeta (newText : String) :
    ∀ (im pe f : Bool) (x : Xml),
      eligMetaOne im pe (rpOne newText im pe f x).1 =
        (if f then writeFirstMeta newText (eligMetaOne im pe x)
         else blankMeta (eligMetaOne im pe x))
      ∧ (rpOne newText im pe f x).2 = (f && (eligTsOne im pe x).isEmpty)
  | im, pe, f, .elem tag attrs text cs => by
    obtain ⟨hla, hlb⟩ := rpList_eligMeta newText (im || isMathTag tag) (tag == "a:r" && !im)
      (if (tag == "a:t" && pe) = true then false else f) cs
    by_cases hT : (tag == "a:t" && pe) = true
    · rw [if_pos hT] at hla hlb
      cases f with
      | true =>
        rw [rpOne_elem_t_first newText im pe tag attrs text cs hT]
        constructor
        · rw [eligMetaOne_elem, eligMetaOne_elem, if_pos hT, if_pos hT, hla]
          simp [writeFirstMeta, blankMeta]
        · rw [eligTsOne_elem, if_pos hT]
          simp
      | false =>
        rw [rpOne_elem_t_rest newText im pe tag attrs text cs hT]
        constructor
        · rw [eligMetaOne_elem, eligMetaOne_elem, if_pos hT, if_pos hT, hla]
          simp [blankMeta]
        · simp
    · have hT' : (tag == "a:t" && pe) = false := by
        cases hh : (tag == "a:t" && pe)
        · rfl
        · exact absurd hh hT
      rw [if_neg hT] at hla hlb
      rw [rpOne_elem_not_t newText im pe f tag attrs text cs hT']
      have hmeta : ∀ (l : List Xml), eligMetaOne im pe (Xml.elem tag attrs text l) =
          eligMetaList (im || isMathTag tag) (tag == "a:r" && !im) l := by
        intro l
        rw [eligMetaOne_elem, hT']
        simp
      constructor
      · show eligMetaOne im pe (Xml.elem tag attrs text
            (rpList newText (im || isMathTag tag) (tag == "a:r" && !im) f cs).1) = _
        simp only [hmeta]
        exact hla
      · show (rpList newText (im || isMathTag tag) (tag == "a:r" && !im) f cs).2 = _
        rw [hlb, eligTsOne_elem, hT']
        simp

end

theorem filter_map_setAttr (attrs : List (String × String)) (v : String) :
    ((attrs.map (fun pr => if pr.1 == "xml:space" then ("xml:space", v) else pr)).filter
      (fun pr => pr.1 != "xml:space")) = attrs.filter (fun pr => pr.1 != "xml:space") := by
  induction attrs with
  | nil => rfl
  | cons a as ih =>
    by_cases h : (a.1 == "xml:space") = true
    · simp only [List.map_cons, if_pos h, List.filter_cons]
      rw [if_neg (by simp), if_neg (by simpa using h)]
      exact ih
    · simp only [List.map_cons, if_neg h, List.filter_cons]
      by_cases h2 : (a.1 != "xml:space") = true
      · rw [if_pos h2, if_pos h2, ih]
      · rw [if_neg h2, if_neg h2]
        exact ih

theorem filter_setXmlSpacePreserve (attrs : List (String × String)) :
    (setXmlSpacePreserve attrs).filter (fun pr => pr.1 != "xml:space") =
      attrs.filter (fun pr => pr.1 != "xml:space") := by
  unfold setXmlSpacePreserve setAttr
  split
  · exact filter_map_setAttr attrs "preserve"
  · rw [List.filter_append]
    simp

theorem skelOne_elem_t (im pe : Bool) (tag : String) (attrs : List (String × String))
    (text : String) (cs : List Xml) (hT : (tag == "a:t" && pe) = true) :
    skelOne im pe (.elem tag attrs text cs) =
      .elem tag (attrs.filter (fun pr => pr.1 != "xml:space")) ""
        (skelList (im || isMathTag tag) (tag == "a:r" && !im) cs) := by
  simp [skelOne, hT]

theorem skelOne_elem_not_t (im pe : Bool) (tag : String) (attrs : List (String × String))
    (text : String) (cs : List Xml) (hT : (tag == "a:t" && pe) = false) :
    skelOne im pe (.elem tag attrs text cs) =
      .elem tag attrs text
        (skelList (im || isMathTag tag) (tag == "a:r" && !im) cs) := by
  simp [skelOne, hT]

mutual

theorem rpList_skel (newText : String) :
    ∀ (im pe f : Bool) (cs : List Xml),
      skelList im pe (rpList newText im pe f cs).1 = skelList im pe cs
  | im, pe, f, [] => rfl
  | im, pe, f, x :: xs => by
    show skelList im pe ((rpOne newText im pe f x).1 ::
        (rpList newText im pe (rpOne newText im pe f x).2 xs).1) = _
    show skelOne im pe (rpOne newText im pe f x).1 ::
        skelList im pe (rpList newText im pe (rpOne newText im pe f x).2 xs).1 = _
    rw [rpOne_skel newText im pe f x,
      rpList_skel newText im pe (rpOne newText im pe f x).2 xs]
    rfl

theorem rpOne_skel (newText : String) :
    ∀ (im pe f : Bool) (x : Xml),
      skelOne im pe (rpOne newText im pe f x).1 = skelOne im pe x
  | im, pe, f, .elem tag attrs text cs => by
    by_cases hT : (tag == "a:t" && pe) = true
    · cases f with
      | true =>
        rw [rpOne_elem_t_first newText im pe tag attrs text cs hT,
          skelOne_elem_t im pe tag _ _ _ hT, skelOne_elem_t im pe tag _ _ _ hT,
          rpList_skel newText _ _ false cs, filter_setXmlSpacePreserve]
      | false =>
        rw [rpOne_elem_t_rest newText im pe tag attrs text cs hT,
          skelOne_elem_t im pe tag _ _ _ hT, skelOne_elem_t im pe tag _ _ _ hT,
          rpList_skel newText _ _ false cs]
    · have hT' : (tag == "a:t" && pe) = false := by
        cases hh : (tag == "a:t" && pe)
        · rfl
        · exact absurd hh hT
      rw [rpOne_elem_not_t newText im pe f tag attrs text cs hT',
        skelOne_elem_not_t im pe tag _ _ _ hT', skelOne_elem_not_t im pe tag _ _ _ hT',
        rpList_skel newText _ _ f cs]

end

theorem map_const_empty_replicate {α : Type} (l : List α) :
    l.map (fun _ => ("" : String)) = List.replicate l.length "" := by
  induction l with
  | nil => rfl
  | cons a as ih => simp [ih, List.replicate]

theorem eligMeta_snd (im pe : Bool) (l : List Xml) :
    (eligMetaList im pe l).map (fun pr => pr.2) = (eligTsList im pe l).map Xml.text := by
  unfold eligMetaList
  rw [List.map_map]
  exact List.map_congr_left (fun t _ => rfl)

theorem visible_empty_of_no_elig (p : Xml) (h : eligTs p = []) :
    visiblePlaintextOutsideMath p = "" := by
  unfold visiblePlaintextOutsideMath
  rw [h]
  rfl

theorem eligTs_ne_nil_of_visible (p : Xml)
    (h : pyStripIsEmpty (visiblePlaintextOutsideMath p) = false) : eligTs p ≠ [] := by
  intro hnil
  rw [visible_empty_of_no_elig p hnil] at h
  exact absurd h (by decide)

theorem blankMeta_snd (l : List (List (String × String) × String)) :
    (blankMeta l).map (fun pr => pr.2) = List.replicate l.length "" := by
  induction l with
  | nil => rfl
  | cons a as ih =>
    simp only [blankMeta, List.map_cons, List.length_cons, List.replicate] at ih ⊢
    rw [ih]

/-- C5 (amended): during paragraph-level patching, any paragraph whose
visible plain text outside embedded formulas is empty or whitespace-only
(the source strips it before testing) is left completely untouched; for
every paragraph whose visible plain text contains a non-whitespace
character, the full edited line is written into the first text-bearing
inline unit outside formula scope, every other non-formula text-bearing
unit in the paragraph is blanked, and the eligible-unit erasure of the
paragraph — all break, tab, and formula subtrees, and every other byte
outside the patched text fields — is physically unchanged. -/
theorem paragraphPatch_effect (p : Xml) (line : String) :
    (pyStripIsEmpty (visiblePlaintextOutsideMath p) = true → patchOneParagraph p line = p)
    ∧ (pyStripIsEmpty (visiblePlaintextOutsideMath p) = false →
        (eligTs (patchOneParagraph p line)).map Xml.text =
          line :: List.replicate ((eligTs p).length - 1) "")
    ∧ skelParagraph (patchOneParagraph p line) = skelParagraph p := by
  refine ⟨fun h => by simp [patchOneParagraph, h], fun h => ?_, ?_⟩
  · have hpatch : patchOneParagraph p line = replacePlaintextPreservingMath p line := by
      simp [patchOneParagraph, h]
    rw [hpatch]
    have hne : eligTs p ≠ [] := eligTs_ne_nil_of_visible _ h
    cases p with
    | elem tag attrs text cs =>
      have hmeta := (rpList_eligMeta line (isMathTag tag) false true cs).1
      unfold eligTs at hne ⊢
      simp only [replacePlaintextPreservingMath, Xml.children, Xml.tag] at hne ⊢
      cases helig : eligTsList (isMathTag tag) false cs with
      | nil => exact absurd helig hne
      | cons t0 rest =>
        rw [← eligMeta_snd, hmeta, if_pos rfl]
        have hml : eligMetaList (isMathTag tag) false cs =
            (t0.attrs, t0.text) :: rest.map (fun t => (t.attrs, t.text)) := by
          unfold eligMetaList
          rw [helig, List.map_cons]
        rw [hml, writeFirstMeta, List.map_cons, blankMeta_snd]
        simp [List.length_map]
  · by_cases h : pyStripIsEmpty (visiblePlaintextOutsideMath p) = true
    · simp [patchOneParagraph, h]
    · have hpatch : patchOneParagraph p line = replacePlaintextPreservingMath p line := by
        simp [patchOneParagraph, h]
      rw [hpatch]
      cases p with
      | elem tag attrs text cs =>
        unfold skelParagraph
        simp only [replacePlaintextPreservingMath, Xml.withChildren, Xml.tag, Xml.children]
        rw [rpList_skel line (isMathTag tag) false true cs]

/-- Witness for paragraphPatch_effect: patching the two-run paragraph with
the line B writes B into the first unit and blanks the second. -/
theorem paragraphPatch_effect_witness :
    pyStripIsEmpty (visiblePlaintextOutsideMath paraTwoRuns) = false
    ∧ (eligTs (patchOneParagraph paraTwoRuns "B")).map Xml.text =
        "B" :: List.replicate ((eligTs paraTwoRuns).length - 1) "" :=
  ⟨by decide, ((paragraphPatch_effect paraTwoRuns "B").2.1 (by decide))⟩

/-- C5 counterexample: a paragraph whose visible plain text is the single
space " " is non-empty, yet the paragraph-level patch leaves it completely
untouched instead of writing the edited line into its text unit, because
the source tests the stripped text. -/
theorem whitespace_paragraph_not_patched :
    visiblePlaintextOutsideMath paraSpaceOnly = " "
    ∧ visiblePlaintextOutsideMath paraSpaceOnly ≠ ""
    ∧ (eligTs (patchOneParagraph paraSpaceOnly "edited")).map Xml.text = [" "] := by
  refine ⟨by decide, by decide, by decide⟩

theorem find_map_setkey (attrs : List (String × String))
    (hany : attrs.any (fun pr => pr.1 == "xml:space") = true) :
    (((attrs.map (fun pr => if pr.1 == "xml:space" then ("xml:space", "preserve") else pr)).find?
      (fun pr => pr.1 == "xml:space")).map (fun pr => pr.2)) = some "preserve" := by
  induction attrs with
  | nil => simp at hany
  | cons a as ih =>
    by_cases h : (a.1 == "xml:space") = true
    · rw [List.map_cons, if_pos h, List.find?_cons_of_pos _ (by decide)]
      rfl
    · rw [List.map_cons, if_neg h, List.find?_cons_of_neg _ (by simpa using h)]
      refine ih ?_
      rcases List.any_eq_true.mp hany with ⟨x, hx, hpx⟩
      rcases List.mem_cons.mp hx with rfl | hx'
      · exact absurd hpx h
      · exact List.any_eq_true.mpr ⟨x, hx', hpx⟩

theorem attr_setXmlSpacePreserve (attrs : List (String × String)) :
    (((setXmlSpacePreserve attrs).find? (fun pr => pr.1 == "xml:space")).map
      (fun pr => pr.2)) = some "preserve" := by
  unfold setXmlSpacePreserve setAttr
  split
  · rename_i hany
    exact find_map_setkey attrs hany
  · rename_i hany
    have hfalse : attrs.any (fun pr => pr.1 == "xml:space") = false := by
      cases hh : attrs.any (fun pr => pr.1 == "xml:space")
      · rfl
      · exact absurd hh hany
    have hnone : attrs.find? (fun pr => pr.1 == "xml:space") = none := by
      rw [List.find?_eq_none]
      intro x hx
      have h3 := List.any_eq_false.mp hfalse x hx
      simpa using h3
    rw [List.find?_append, hnone]
    rfl

/-- C10: every text element into which either patch strategy writes edited
text carries xml:space preserve: each new segment a:t created by
_replace_single_t_with_segments is marked, and so is the first non-formula
text unit rewritten by the paragraph-level patch. -/
theorem written_units_xmlSpace_preserve (text line : String) (p : Xml) :
    (∀ el ∈ segmentElems text, el.tag = "a:t" → el.attr "xml:space" = some "preserve")
    ∧ (pyStripIsEmpty (visiblePlaintextOutsideMath p) = false →
        ∃ t0 rest, eligTs (patchOneParagraph p line) = t0 :: rest
          ∧ t0.attr "xml:space" = some "preserve") := by
  constructor
  · intro el hel htag
    unfold segmentElems at hel
    rw [List.mem_flatMap] at hel
    obtain ⟨sg, _, hmem⟩ := hel
    rcases List.mem_cons.mp hmem with rfl | hrest
    · rfl
    · exfalso
      by_cases h1 : (sg.2 == "\\n") = true
      · rw [if_pos h1] at hrest
        rw [List.mem_singleton.mp hrest] at htag
        exact absurd htag (by decide)
      · rw [if_neg h1] at hrest
        by_cases h2 : (sg.2 == "\\t") = true
        · rw [if_pos h2] at hrest
          rw [List.mem_singleton.mp hrest] at htag
          exact absurd htag (by decide)
        · rw [if_neg h2] at hrest
          exact absurd hrest (List.not_mem_nil el)
  · intro h
    have hpatch : patchOneParagraph p line = replacePlaintextPreservingMath p line := by
      simp [patchOneParagraph, h]
    have hne : eligTs p ≠ [] := eligTs_ne_nil_of_visible _ h
    cases p with
    | elem tag attrs text0 cs =>
      have hmeta := (rpList_eligMeta line (isMathTag tag) false true cs).1
      rw [if_pos rfl] at hmeta
      unfold eligTs at hne
      simp only [Xml.tag, Xml.children] at hne
      cases helig : eligTsList (isMathTag tag) false cs with
      | nil => exact absurd helig hne
      | cons t0 rest =>
        have hml : eligMetaList (isMathTag tag) false cs =
            (t0.attrs, t0.text) :: rest.map (fun t => (t.attrs, t.text)) := by
          unfold eligMetaList
          rw [helig, List.map_cons]
        rw [hml, writeFirstMeta] at hmeta
        rw [hpatch]
        unfold eligTs
        simp only [replacePlaintextPreservingMath, Xml.tag, Xml.children]
        cases hres : eligTsList (isMathTag tag) false
            (rpList line (isMathTag tag) false true cs).1 with
        | nil =>
          have hempty : eligMetaList (isMathTag tag) false
              (rpList line (isMathTag tag) false true cs).1 = [] := by
            unfold eligMetaList
            rw [hres]
            rfl
          rw [hempty] at hmeta
          simp at hmeta
        | cons u0 urest =>
          refine ⟨u0, urest, rfl, ?_⟩
          have h2 : eligMetaList (isMathTag tag) false
              (rpList line (isMathTag tag) false true cs).1 =
              (u0.attrs, u0.text) :: urest.map (fun t => (t.attrs, t.text)) := by
            unfold eligMetaList
            rw [hres, List.map_cons]
          rw [h2] at hmeta
          have h4 : (u0.attrs, u0.text) = (setXmlSpacePreserve t0.attrs, line) :=
            (List.cons_eq_cons.mp hmeta).1
          have h5 : u0.attrs = setXmlSpacePreserve t0.attrs := congrArg Prod.fst h4
          show ((u0.attrs.find? (fun pr => pr.1 == "xml:space")).map (fun pr => pr.2)) =
            some "preserve"
          rw [h5]
          exact attr_setXmlSpacePreserve t0.attrs

/-- Witness for written_units_xmlSpace_preserve: the first unit of the
patched two-run paragraph carries the attribute. -/
theorem written_units_xmlSpace_preserve_witness :
    pyStripIsEmpty (visiblePlaintextOutsideMath paraTwoRuns) = false
    ∧ (∃ t0 rest, eligTs (patchOneParagraph paraTwoRuns "B") = t0 :: rest
        ∧ t0.attr "xml:space" = some "preserve") :=
  ⟨by decide, (written_units_xmlSpace_preserve "x\\ny" "B" paraTwoRuns).2 (by decide)⟩

theorem clamp_comm (v : Int) : max 1 (min 9 (v + 1)) = min 9 (max 1 (v + 1)) := by
  omega

theorem startsWith_eq_claimSuppressed (body : String) :
    startsWithNoSpaceStarter body = claimSpaceSuppressed body := by
  unfold startsWithNoSpaceStarter claimSpaceSuppressed noSpaceStarters
  cases body.data with
  | nil => rfl
  | cons c l =>
    by_cases hm : c ∈ [':', ';', '.', ',', ')', '-', '—', '·', ' ']
    · simp [hm]
    · simp [hm]

theorem bullet_assembly (bs body : String) :
    (if bs ≠ "" then bs ++ (if startsWithNoSpaceStarter body then "" else " ") ++ body
     else body) =
      (match (if bs = "" then none else some bs) with
       | some b => b ++ (if claimSpaceSuppressed body then "" else " ") ++ body
       | none => body) := by
  rw [startsWith_eq_claimSuppressed]
  by_cases h : bs = ""
  · simp [h]
  · simp [h]

theorem claimExplicit_eq (p : Xml) :
    claimExplicitBullet p =
      (if explicitBuChar (findChild "a:pPr" p) = "" then none
       else some (explicitBuChar (findChild "a:pPr" p))) := by
  unfold claimExplicitBullet explicitBuChar buCharOf
  cases hp : findChild "a:pPr" p with
  | none => simp
  | some pr =>
    cases hbu : findChild "a:buChar" pr with
    | none => simp [hbu]
    | some bu =>
      cases hch : bu.attr "char" with
      | none => simp [hbu, hch]
      | some ch =>
        by_cases h : ch = ""
        · simp [hbu, hch, h]
        · simp [hbu, hch, h]

theorem claimInherited_eq (p : Xml) (lst : Option Xml) :
    claimInheritedBullet p lst =
      (if inheritedBuChar (findChild "a:pPr" p) lst = "" then none
       else some (inheritedBuChar (findChild "a:pPr" p) lst)) := by
  unfold claimInheritedBullet inheritedBuChar buCharOf
  cases lst with
  | none => simp
  | some ls =>
    rw [show clampedLvlName (paragraphLevel (findChild "a:pPr" p)) =
      "a:lvl" ++ toString (min 9 (max 1 (paragraphLevel (findChild "a:pPr" p) + 1))) ++ "pPr"
      from by
        unfold clampedLvlName
        rw [clamp_comm]]
    cases hlvl : findChild ("a:lvl" ++
        toString (min 9 (max 1 (paragraphLevel (findChild "a:pPr" p) + 1))) ++ "pPr") ls with
    | none => simp [hlvl]
    | some lvlPPr =>
      cases hbu : findChild "a:buChar" lvlPPr with
      | none => simp [hlvl, hbu]
      | some bu =>
        cases hch : bu.attr "char" with
        | none => simp [hlvl, hbu, hch]
        | some ch =>
          by_cases h : ch = ""
          · simp [hlvl, hbu, hch, h]
          · simp [hlvl, hbu, hch, h]

theorem claimBullet_eq (p : Xml) (lst : Option Xml) :
    ((claimExplicitBullet p).orElse (fun _ => claimInheritedBullet p lst)) =
      (if resolvedBullet (findChild "a:pPr" p) lst = "" then none
       else some (resolvedBullet (findChild "a:pPr" p) lst)) := by
  rw [claimExplicit_eq, claimInherited_eq]
  unfold resolvedBullet
  by_cases hx : explicitBuChar (findChild "a:pPr" p) = ""
  · have hxb : (explicitBuChar (findChild "a:pPr" p) == "") = true := by simpa using hx
    rw [if_pos hx, hxb]
    simp
  · have hxb : (explicitBuChar (findChild "a:pPr" p) == "") = false := by
      cases hh : explicitBuChar (findChild "a:pPr" p) == ""
      · rfl
      · exact absurd (by simpa using hh) hx
    rw [if_neg hx, hxb]
    simp [hx]

/-- C8: for every extracted paragraph, the resolved bullet is the explicit
buChar on the paragraph's properties when present with a non-empty
character, else the buChar of the text body's list-style at nesting
level + 1 clamped to the range 1..9, else none; a non-empty bullet is
prefixed with a single separating space, suppressed exactly when the text
begins with colon, semicolon, period, comma, closing paren, a dash variant
(hyphen-minus or em dash), middle dot, or a space. -/
theorem extractParagraphText_eq_claim (p : Xml) (lst : Option Xml) :
    extractParagraphText p lst = claimParagraphLine p lst := by
  unfold extractParagraphText claimParagraphLine
  rw [claimBullet_eq]
  exact bullet_assembly (resolvedBullet (findChild "a:pPr" p) lst) (paragraphBodyText p)

theorem flatMap_skip_filter (l : List (Xml × Bool)) (f : Xml → List String) :
    (l.flatMap (fun tb => if tb.2 then [] else f tb.1)) =
      ((l.filter (fun tb => !tb.2)).flatMap (fun tb => f tb.1)) := by
  induction l with
  | nil => rfl
  | cons a as ih =>
    cases ha : a.2 with
    | true => simp [ha, ih]
    | false => simp [ha, ih]

/-- C6 (amended): a shape whose declared placeholder type is date,
slide-number, footer, or header never contributes a line to the extracted
LineFile (its text bodies are filtered out of the extraction), and its
text-bearing units are never a patch target of the paragraph-level method
(the paragraph collector returns nothing for a skipped shape); the
run-level method, however, performs a raw scan of every a:t element of the
slide, placeholder shapes included, so it can patch them (see the
counterexample). -/
theorem placeholder_exclusion (root : Xml) (x : Xml) :
    iterAllParagraphsFromSlideXml root =
      (((txBodiesWSList "a:txBody" none root.children ++
          txBodiesWSList "p:txBody" none root.children).filter
            (fun tb => !tb.2)).flatMap
        (fun tb => (childrenTag "a:p" tb.1).map
          (fun pe => extractParagraphText pe (findChild "a:lstStyle" tb.1))))
    ∧ (x.tag = "p:sp" → shapeIsSkippedPlaceholder x = true →
        collectParagraphsFromNode x = []) := by
  constructor
  · simp only [iterAllParagraphsFromSlideXml]
    exact flatMap_skip_filter
      (txBodiesWSList "a:txBody" none root.children ++
        txBodiesWSList "p:txBody" none root.children)
      (fun b => (childrenTag "a:p" b).map
        (fun pe => extractParagraphText pe (findChild "a:lstStyle" b)))
  · intro htag hskip
    cases x with
    | elem tag a s cs =>
      have htag2 : (tag == "p:sp") = true := by
        simp only [Xml.tag] at htag
        simpa using htag
      unfold collectParagraphsFromNode
      rw [if_pos htag2, if_pos hskip]

/-- Witness for placeholder_exclusion at the date-placeholder shape. -/
theorem placeholder_exclusion_witness :
    (Xml.tag spDatePh = "p:sp" ∧ shapeIsSkippedPlaceholder spDatePh = true)
    ∧ collectParagraphsFromNode spDatePh = [] :=
  ⟨⟨by decide, by decide⟩,
    (placeholder_exclusion slideDatePh spDatePh).2 (by decide) (by decide)⟩

/-- C6 counterexample: the claim says placeholder units are never a patch
target under either method, but the run-level patch overwrites the a:t
inside a date placeholder: its text becomes the supplied line. -/
theorem placeholder_patched_by_run_level :
    shapeIsSkippedPlaceholder spDatePh = true
    ∧ slideLineFileLines slideDatePh = []
    ∧ (findRuns slideDatePh).map Xml.text = ["01/02/2024"]
    ∧ (findRuns (patchSlideRuns slideDatePh ["REPLACED"]).tree).map Xml.text =
        ["REPLACED"] := by
  refine ⟨by decide, by decide, by decide, by decide⟩

/-- C1 counterexample: extracting the bulleted slide yields the LineFile
line bullet-space-x; reintegrating that unedited LineFile picks the
run-level method (one unit, one line) and writes the whole line — bullet
included — into the text unit, so the slide's visible plain text outside
math changes from x to bullet-space-x: the round trip is not an identity on
visible text. -/
theorem roundtrip_changes_visible_text :
    slideLineFileLines slideBullet = ["• x"]
    ∧ paragraphVisibleTexts slideBullet = ["x"]
    ∧ (patchSlideHybrid slideBullet (slideLineFileLines slideBullet)).method = "runs"
    ∧ paragraphVisibleTexts
        (patchSlideHybrid slideBullet (slideLineFileLines slideBullet)).outcome.tree =
        ["• x"] := by
  have hlines : slideLineFileLines slideBullet = ["• x"] := by decide
  have hchoose : chooseMethod ((findRuns slideBullet).length)
      ((["• x"] : List String).length) = "runs" := by
    have hn : (findRuns slideBullet).length = 1 := by decide
    rw [hn]
    show chooseMethod 1 1 = "runs"
    unfold chooseMethod
    norm_num
  have hhyb : patchSlideHybrid slideBullet ["• x"] =
      ⟨"runs", (findRuns slideBullet).length, patchSlideRuns slideBullet ["• x"]⟩ := by
    simp only [patchSlideHybrid]
    rw [hchoose]
    simp
  refine ⟨hlines, by decide, ?_, ?_⟩
  · rw [hlines, hhyb]
  · rw [hlines, hhyb]
    decide

mutual

theorem countTag_norm_list (tag : String) :
    ∀ cs : List Xml, countTagList tag (normList cs) = countTagList tag cs
  | [] => rfl
  | x :: xs => by
    show countTagOne tag (normOne x) + countTagList tag (normList xs) = _
    rw [countTag_norm_one tag x, countTag_norm_list tag xs]
    rfl

theorem countTag_norm_one (tag : String) :
    ∀ x : Xml, countTagOne tag (normOne x) = countTagOne tag x
  | .elem t a s cs => by
    show (if t == tag then 1 else 0) + countTagList tag (normList cs) = _
    rw [countTag_norm_list tag cs]
    rfl

end

mutual

theorem rpList_norm (newText : String) :
    ∀ (im pe f : Bool) (cs : List Xml),
      normList (rpList newText im pe f cs).1 = normList cs
  | im, pe, f, [] => rfl
  | im, pe, f, x :: xs => by
    show normOne (rpOne newText im pe f x).1 ::
        normList (rpList newText im pe (rpOne newText im pe f x).2 xs).1 = _
    rw [rpOne_norm newText im pe f x,
      rpList_norm newText im pe (rpOne newText im pe f x).2 xs]
    rfl

theorem rpOne_norm (newText : String) :
    ∀ (im pe f : Bool) (x : Xml),
      normOne (rpOne newText im pe f x).1 = normOne x
  | im, pe, f, .elem tag attrs text cs => by
    by_cases hT : (tag == "a:t" && pe) = true
    · have htag : (tag == "a:t") = true := by
        cases hb : (tag == "a:t")
        · rw [hb] at hT
          simp at hT
        · rfl
      cases f with
      | true =>
        rw [rpOne_elem_t_first newText im pe tag attrs text cs hT]
        show Xml.elem tag _ "" _ = _
        unfold normOne
        rw [if_pos htag, if_pos htag, filter_setXmlSpacePreserve,
          rpList_norm newText _ _ false cs]
      | false =>
        rw [rpOne_elem_t_rest newText im pe tag attrs text cs hT]
        unfold normOne
        rw [rpList_norm newText _ _ false cs]
    · have hT' : (tag == "a:t" && pe) = false := by
        cases hh : (tag == "a:t" && pe)
        · rfl
        · exact absurd hh hT
      rw [rpOne_elem_not_t newText im pe f tag attrs text cs hT']
      unfold normOne
      rw [rpList_norm newText _ _ f cs]

end

theorem patchOneParagraph_elem (tag : String) (attrs : List (String × String))
    (text : String) (cs : List Xml) (l : String) :
    patchOneParagraph (.elem tag attrs text cs) l =
      .elem tag attrs text
        (if pyStripIsEmpty (visiblePlaintextOutsideMath (.elem tag attrs text cs))
         then cs else (rpList l (isMathTag tag) false true cs).1) := by
  unfold patchOneParagraph replacePlaintextPreservingMath
  by_cases h : pyStripIsEmpty (visiblePlaintextOutsideMath (.elem tag attrs text cs)) = true
  · rw [if_pos h, if_pos h]
  · rw [if_neg h, if_neg h]

theorem patchOneParagraph_norm_children (tag : String) (attrs : List (String × String))
    (text : String) (cs : List Xml) (l : String) :
    normList (patchOneParagraph (.elem tag attrs text cs) l).children = normList cs := by
  rw [patchOneParagraph_elem]
  show normList (if pyStripIsEmpty (visiblePlaintextOutsideMath (.elem tag attrs text cs))
    then cs else (rpList l (isMathTag tag) false true cs).1) = _
  split
  · rfl
  · exact rpList_norm l (isMathTag tag) false true cs

theorem patchOneParagraph_withChildren (tag : String) (attrs : List (String × String))
    (text : String) (cs : List Xml) (l : String) (ncs : List Xml) :
    (patchOneParagraph (.elem tag attrs text cs) l).withChildren ncs =
      .elem tag attrs text ncs := by
  rw [patchOneParagraph_elem]
  rfl

mutual

theorem paraApplyList_norm : ∀ (lines : List String) (cs : List Xml),
    normList (paraApplyList lines cs).1 = normList cs
  | lines, [] => by rw [paraApplyList.eq_def]
  | lines, x :: xs => by
    rw [paraApplyList.eq_def]
    show normOne (paraApplyOne lines x).1 ::
        normList (paraApplyList (paraApplyOne lines x).2 xs).1 = _
    rw [paraApplyOne_norm lines x, paraApplyList_norm (paraApplyOne lines x).2 xs]
    rfl
termination_by lines cs => 2 * nodeCountList cs + 1
decreasing_by
  all_goals have hpos := nodeCountOne_pos x
  all_goals simp only [nodeCountList]
  all_goals omega

theorem paraApplyOne_norm : ∀ (lines : List String) (x : Xml),
    normOne (paraApplyOne lines x).1 = normOne x
  | lines, .elem tag attrs text cs => by
    simp only [paraApplyOne.eq_def]
    by_cases ht : (tag == "a:p") = true
    · rw [if_pos ht]
      cases lines with
      | nil => rfl
      | cons l ls =>
        show normOne ((patchOneParagraph (Xml.elem tag attrs text cs) l).withChildren
          (paraApplyList ls (patchOneParagraph (Xml.elem tag attrs text cs) l).children).1) = _
        rw [patchOneParagraph_withChildren]
        unfold normOne
        rw [paraApplyList_norm ls (patchOneParagraph (Xml.elem tag attrs text cs) l).children,
          patchOneParagraph_norm_children]
    · rw [if_neg ht]
      show normOne (Xml.elem tag attrs text (paraApplyList lines cs).1) = _
      unfold normOne
      rw [paraApplyList_norm lines cs]
termination_by lines x => 2 * nodeCountOne x
decreasing_by
  all_goals simp only [nodeCountOne]
  all_goals first
  | (rw [patchOneParagraph_children_count]
     simp only [Xml.children, nodeCountOne]
     omega)
  | omega

end

mutual

theorem paraPatchList_norm : ∀ (lines : List String) (cs : List Xml),
    normList (paraPatchList lines cs).1 = normList cs
  | lines, [] => by simp [paraPatchList]
  | lines, x :: xs => by
    simp only [paraPatchList]
    show normOne (paraPatchOne lines x).1 ::
        normList (paraPatchList (paraPatchOne lines x).2 xs).1 = _
    rw [paraPatchOne_norm lines x, paraPatchList_norm (paraPatchOne lines x).2 xs]
    rfl

theorem paraPatchOne_norm : ∀ (lines : List String) (x : Xml),
    normOne (paraPatchOne lines x).1 = normOne x
  | lines, .elem tag attrs text cs => by
    simp only [paraPatchOne]
    by_cases h1 : (tag == "p:sp") = true
    · rw [if_pos h1]
      by_cases h2 : shapeIsSkippedPlaceholder (.elem tag attrs text cs) = true
      · rw [if_pos h2]
      · rw [if_neg h2]
        show normOne (Xml.elem tag attrs text (patchFirstTxBody lines cs).1) = _
        unfold normOne
        rw [patchFirstTxBody_norm lines cs]
    · rw [if_neg h1]
      by_cases h2 : (tag == "p:grpSp") = true
      · rw [if_pos h2]
        show normOne (Xml.elem tag attrs text (paraPatchList lines cs).1) = _
        unfold normOne
        rw [paraPatchList_norm lines cs]
      · rw [if_neg h2]
        by_cases h3 : (tag == "p:graphicFrame") = true
        · rw [if_pos h3]
          show normOne (Xml.elem tag attrs text (paraApplyList lines cs).1) = _
          unfold normOne
          rw [paraApplyList_norm lines cs]
        · rw [if_neg h3]
          show normOne (Xml.elem tag attrs text (paraPatchList lines cs).1) = _
          unfold normOne
          rw [paraPatchList_norm lines cs]

theorem patchFirstTxBody_norm : ∀ (lines : List String) (cs : List Xml),
    normList (patchFirstTxBody lines cs).1 = normList cs
  | lines, [] => by simp [patchFirstTxBody]
  | lines, c :: cs => by
    simp only [patchFirstTxBody]
    by_cases h : (c.tag == "p:txBody") = true
    · rw [if_pos h]
      cases c with
      | elem t a s k =>
        show normOne (Xml.elem t a s (paraApplyList lines k).1) :: normList cs = _
        unfold normOne
        rw [paraApplyList_norm lines k]
        rfl
    · rw [if_neg h]
      show normOne c :: normList (patchFirstTxBody lines cs).1 = _
      rw [patchFirstTxBody_norm lines cs]
      rfl

end

mutual

theorem findSpTreePatchList_norm : ∀ (lines : List String) (b : Bool) (cs : List Xml),
    normList (findSpTreePatchList lines b cs).1 = normList cs
  | lines, b, [] => by simp [findSpTreePatchList]
  | lines, b, c :: cs => by
    simp only [findSpTreePatchList]
    by_cases h : (findSpTreePatchOne lines b c).2.2 = true
    · rw [if_pos h]
      show normOne (findSpTreePatchOne lines b c).1 :: normList cs = _
      rw [findSpTreePatchOne_norm lines b c]
      rfl
    · rw [if_neg h]
      show normOne (findSpTreePatchOne lines b c).1 ::
          normList (findSpTreePatchList (findSpTreePatchOne lines b c).2.1 b cs).1 = _
      rw [findSpTreePatchOne_norm lines b c,
        findSpTreePatchList_norm (findSpTreePatchOne lines b c).2.1 b cs]
      rfl

theorem findSpTreePatchOne_norm : ∀ (lines : List String) (b : Bool) (x : Xml),
    normOne (findSpTreePatchOne lines b x).1 = normOne x
  | lines, b, .elem tag attrs text cs => by
    simp only [findSpTreePatchOne]
    by_cases h : (b && tag == "p:spTree") = true
    · rw [if_pos h]
      show normOne (Xml.elem tag attrs text (paraPatchList lines cs).1) = _
      unfold normOne
      rw [paraPatchList_norm lines cs]
    · rw [if_neg h]
      show normOne (Xml.elem tag attrs text
        (findSpTreePatchList lines (tag == "p:cSld") cs).1) = _
      unfold normOne
      rw [findSpTreePatchList_norm lines (tag == "p:cSld") cs]

end

theorem patchSlideParagraphs_norm (root : Xml) (lines : List String) :
    normOne (patchSlideParagraphs root lines).tree = normOne root := by
  simp only [patchSlideParagraphs]
  by_cases h0 : ((collectParagraphs root).length == 0) = true
  · rw [if_pos h0]
  · rw [if_neg h0]
    cases hf : findSpTreeList false root.children with
    | some st =>
      cases root with
      | elem t a s cs =>
        show normOne (Xml.elem t a s (findSpTreePatchList
          (adjustLines lines (collectParagraphs (Xml.elem t a s cs)).length).1 false cs).1) = _
        unfold normOne
        rw [findSpTreePatchList_norm]
    | none =>
      cases root with
      | elem t a s cs =>
        show normOne (Xml.elem t a s (paraApplyList
          (adjustLines lines (collectParagraphs (Xml.elem t a s cs)).length).1 cs).1) = _
        unfold normOne
        rw [paraApplyList_norm]

theorem patchSlideParagraphs_count (root : Xml) (lines : List String) :
    countTagOne "a:p" (patchSlideParagraphs root lines).tree = countTagOne "a:p" root := by
  rw [← countTag_norm_one "a:p" (patchSlideParagraphs root lines).tree,
    patchSlideParagraphs_norm, countTag_norm_one]

theorem countTag_append (tag : String) :
    ∀ (as bs : List Xml),
      countTagList tag (as ++ bs) = countTagList tag as + countTagList tag bs
  | [], bs => by
    show countTagList tag bs = countTagList tag [] + countTagList tag bs
    show countTagList tag bs = 0 + countTagList tag bs
    omega
  | a :: as, bs => by
    show countTagOne tag a + countTagList tag (as ++ bs) = _
    rw [countTag_append tag as bs]
    show _ = countTagOne tag a + countTagList tag as + countTagList tag bs
    omega

theorem segmentElems_no_ap (text : String) :
    countTagList "a:p" (segmentElems text) = 0 := by
  unfold segmentElems
  induction splitKeepSeps text with
  | nil => rfl
  | cons sg sgs ih =>
    rw [List.flatMap_cons]
    rw [countTag_append]
    rw [ih]
    have h1 : countTagOne "a:p" (Xml.elem "a:t" (setXmlSpacePreserve []) sg.1 []) = 0 := by
      show (if (("a:t" : String) == "a:p") = true then 1 else 0) + countTagList "a:p" [] = 0
      rw [show (("a:t" : String) == "a:p") = false from by decide]
      rfl
    by_cases hn : (sg.2 == "\\n") = true
    · rw [if_pos hn]
      show countTagOne "a:p" (Xml.elem "a:t" (setXmlSpacePreserve []) sg.1 []) +
        countTagList "a:p" [Xml.elem "a:br" [] "" []] + 0 = 0
      rw [h1]
      decide
    · rw [if_neg hn]
      by_cases ht : (sg.2 == "\\t") = true
      · rw [if_pos ht]
        show countTagOne "a:p" (Xml.elem "a:t" (setXmlSpacePreserve []) sg.1 []) +
          countTagList "a:p" [Xml.elem "a:tab" [] "" []] + 0 = 0
        rw [h1]
        decide
      · rw [if_neg ht]
        show countTagOne "a:p" (Xml.elem "a:t" (setXmlSpacePreserve []) sg.1 []) +
          countTagList "a:p" [] + 0 = 0
        rw [h1]
        decide

theorem bool_and_left {a b : Bool} (h : (a && b) = true) : a = true := by
  cases a
  · simp at h
  · rfl

theorem bool_and_right {a b : Bool} (h : (a && b) = true) : b = true := by
  cases b
  · rw [Bool.and_false] at h
    exact absurd h (by decide)
  · rfl

theorem countOne_at_leaf (c : Xml) (hct : (c.tag == "a:t") = true)
    (hc1 : aTLeafOne c = true) : countTagOne "a:p" c = 0 := by
  cases c with
  | elem t a s k =>
    have ht : t = "a:t" := by simpa [Xml.tag] using hct
    subst ht
    have h' : (("a:t" != "a:t" || k.isEmpty) && aTLeafList k) = true := hc1
    have hk : k.isEmpty = true := by
      cases hke : k.isEmpty
      · rw [hke] at h'
        simp at h'
      · rfl
    have hknil : k = [] := by
      cases k with
      | nil => rfl
      | cons y ys => simp at hk
    subst hknil
    rfl

mutual

theorem patchRunsChildren_count : ∀ (lines : List String) (cs : List Xml),
    aTLeafList cs = true →
    countTagList "a:p" ((patchRunsChildren lines cs).1 ++ (patchRunsChildren lines cs).2.1) =
      countTagList "a:p" cs
  | _, [], _ => rfl
  | lines, c :: cs, h => by
    have hc1 : aTLeafOne c = true := bool_and_left h
    have hc2 : aTLeafList cs = true := bool_and_right h
    simp only [patchRunsChildren]
    by_cases hct : (c.tag == "a:t") = true
    · rw [if_pos hct]
      cases lines with
      | nil =>
        show countTagList "a:p"
          ((c :: (patchRunsChildren [] cs).1) ++ (patchRunsChildren [] cs).2.1) = _
        rw [List.cons_append]
        show countTagOne "a:p" c +
          countTagList "a:p" ((patchRunsChildren [] cs).1 ++ (patchRunsChildren [] cs).2.1) = _
        rw [patchRunsChildren_count [] cs hc2]
        rfl
      | cons l ls =>
        show countTagList "a:p" ((patchRunsChildren ls cs).1 ++
          (segmentElems l ++ (patchRunsChildren ls cs).2.1)) = _
        rw [countTag_append, countTag_append, segmentElems_no_ap l]
        have hIH := patchRunsChildren_count ls cs hc2
        rw [countTag_append] at hIH
        have hc0 : countTagOne "a:p" c = 0 := countOne_at_leaf c hct hc1
        show _ = countTagOne "a:p" c + countTagList "a:p" cs
        omega
    · rw [if_neg hct]
      show countTagList "a:p" (((patchRunsElem lines c).1 ::
          (patchRunsChildren (patchRunsElem lines c).2 cs).1) ++
        (patchRunsChildren (patchRunsElem lines c).2 cs).2.1) = _
      rw [List.cons_append]
      show countTagOne "a:p" (patchRunsElem lines c).1 +
        countTagList "a:p" ((patchRunsChildren (patchRunsElem lines c).2 cs).1 ++
          (patchRunsChildren (patchRunsElem lines c).2 cs).2.1) = _
      rw [patchRunsElem_count lines c hc1,
        patchRunsChildren_count (patchRunsElem lines c).2 cs hc2]
      rfl

theorem patchRunsElem_count : ∀ (lines : List String) (x : Xml),
    aTLeafOne x = true →
    countTagOne "a:p" (patchRunsElem lines x).1 = countTagOne "a:p" x
  | lines, .elem tag a s cs, h => by
    have hcs : aTLeafList cs = true := bool_and_right h
    show (if (tag == "a:p") = true then 1 else 0) + countTagList "a:p"
      ((patchRunsChildren lines cs).1 ++ (patchRunsChildren lines cs).2.1) = _
    rw [patchRunsChildren_count lines cs hcs]
    rfl

end

theorem patchSlideRuns_count (root : Xml) (lines : List String)
    (h : aTLeafOne root = true) :
    countTagOne "a:p" (patchSlideRuns root lines).tree = countTagOne "a:p" root := by
  cases root with
  | elem tag a s cs =>
    have hcs : aTLeafList cs = true := bool_and_right h
    show countTagOne "a:p" (patchRunsElem
      (adjustLines lines ((findRuns (Xml.elem tag a s cs)).length)).1
      (Xml.elem tag a s cs)).1 = _
    exact patchRunsElem_count _ _ h

/-- C1 (amended): reintegrating a slide's own unedited LineFile through the
hybrid patch yields a slide with the same number of paragraph elements (the
patches rewrite only text units, never paragraph structure), provided the
slide's a:t units are leaves as in every real slide part; the per-paragraph
visible plain text outside math is NOT preserved in general, because the
extracted line carries the resolved bullet prefix and embedded-math text,
and that whole line is what gets written back (see the counterexample). -/
theorem roundtrip_preserves_paragraph_count (root : Xml)
    (h : aTLeafOne root = true) :
    countTagOne "a:p"
        (patchSlideHybrid root (slideLineFileLines root)).outcome.tree =
      countTagOne "a:p" root := by
  simp only [patchSlideHybrid]
  by_cases hm : ((chooseMethod ((findRuns root).length)
      ((slideLineFileLines root).length) == "runs") = true)
  · rw [if_pos hm]
    exact patchSlideRuns_count root (slideLineFileLines root) h
  · rw [if_neg hm]
    exact patchSlideParagraphs_count root (slideLineFileLines root)

/-- Witness for roundtrip_preserves_paragraph_count at the bulleted slide. -/
theorem roundtrip_preserves_paragraph_count_witness :
    aTLeafOne slideBullet = true
    ∧ countTagOne "a:p"
        (patchSlideHybrid slideBullet (slideLineFileLines slideBullet)).outcome.tree =
      countTagOne "a:p" slideBullet :=
  ⟨by decide, roundtrip_preserves_paragraph_count slideBullet (by decide)⟩
